import Mathlib

/-
Verification of the `epsilon` crawler subsystem (workspaces/crawler,
workspaces/utils) against its natural-language specification.

The Rust sources are shallowly embedded as executable Lean definitions:

* `workspaces/utils/src/url.rs` (`normalize_url`) delegates to the external
  `url` crate (a WHATWG URL parser).  `Url.parse` below models the subset of
  that parser the crawler exercises: scheme recognition, `//`-authority with
  a host, path / query / fragment splitting (fragment first wins, as in the
  WHATWG grammar), ASCII lower-casing of scheme and host, and the `/` default
  path of special schemes.  Unmodelled crate features, none of which the
  claims under scrutiny exercise: percent-encoding, userinfo and port
  sections (kept verbatim inside the host string here), IDNA, IP-address
  hosts (the crate's `domain()` returns `None` on those), and dot-segment
  removal.
* `workspaces/crawler/src/utils.rs`, `scraper.rs`, `worker.rs`,
  `website.rs`, `crawler.rs` are embedded directly; the `robotstxt`
  dependency used by `Website::is_crawlable` is modelled by a line-based
  robots.txt evaluator (groups of user-agent lines with allow/disallow
  rules, specific-agent groups shadowing `*` groups, longest-match wins,
  allow on ties and on no match) which agrees with the repository's own
  `website.rs` test expectations.
* Database-backed operations (`dequeue`, `save_page`, `save_to_queue`) are
  embedded as pure transformations of an explicit table state.
-/

namespace Epsilon

/-! ### Character and string helpers (structural, kernel-reducible) -/

/-- ASCII lower-casing of a single character, as the `url` crate applies to
schemes and domain hosts. -/
def lowerChar (c : Char) : Char :=
  match c with
  | 'A' => 'a' | 'B' => 'b' | 'C' => 'c' | 'D' => 'd' | 'E' => 'e' | 'F' => 'f'
  | 'G' => 'g' | 'H' => 'h' | 'I' => 'i' | 'J' => 'j' | 'K' => 'k' | 'L' => 'l'
  | 'M' => 'm' | 'N' => 'n' | 'O' => 'o' | 'P' => 'p' | 'Q' => 'q' | 'R' => 'r'
  | 'S' => 's' | 'T' => 't' | 'U' => 'u' | 'V' => 'v' | 'W' => 'w' | 'X' => 'x'
  | 'Y' => 'y' | 'Z' => 'z'
  | c => c

/-- Lower-case every character of a string (ASCII). -/
def lowerStr (s : String) : String :=
  String.mk (s.data.map lowerChar)

/-- Split a character list at the first occurrence of `sep`; `none` when
`sep` does not occur. -/
def splitAtChar (sep : Char) : List Char → Option (List Char × List Char)
  | [] => none
  | c :: cs =>
    if c = sep then some ([], cs)
    else
      match splitAtChar sep cs with
      | some (l, r) => some (c :: l, r)
      | none => none

/-- Take the longest head segment whose characters all fail `stop`, returning
it together with the remainder (which, when nonempty, starts with a `stop`
character). -/
def spanNotChar (stop : Char → Bool) : List Char → List Char × List Char
  | [] => ([], [])
  | c :: cs =>
    if stop c then ([], c :: cs)
    else
      let (l, r) := spanNotChar stop cs
      (c :: l, r)

/-- Split a character list at every occurrence of `sep` (model of Rust's
`str::split`). -/
def splitAllChar (sep : Char) : List Char → List (List Char)
  | [] => [[]]
  | c :: cs =>
    match splitAllChar sep cs with
    | [] => if c = sep then [[], []] else [[c]]
    | seg :: rest => if c = sep then [] :: seg :: rest else (c :: seg) :: rest

/-- ASCII whitespace test used by trimming. -/
def isSpace (c : Char) : Bool :=
  c = ' ' || c = '\t' || c = '\n' || c = '\r'

/-- Trim whitespace from both ends (model of Rust's `str::trim`). -/
def trimStr (s : String) : String :=
  String.mk ((s.data.dropWhile isSpace).reverse.dropWhile isSpace).reverse

/-- Suffix test on strings (model of Rust's `str::ends_with`), computed on
the character lists so that the kernel can evaluate it. -/
def endsWithStr (s suffix : String) : Bool :=
  suffix.data.isSuffixOf s.data

/-- Prefix test on strings (model of Rust's `str::starts_with`). -/
def startsWithStr (s pre : String) : Bool :=
  pre.data.isPrefixOf s.data

/-! ### URL model (`workspaces/utils/src/url.rs` and the `url` crate)

`Url` models the crate's parsed-URL value as the crawler observes it:
scheme, optional authority host, path, optional query, optional fragment. -/

structure Url where
  scheme : String
  host : Option String
  path : String
  query : Option String
  fragment : Option String
deriving DecidableEq, Repr

/-- Schemes the WHATWG standard calls special; they require an authority and
default their path to `/`. -/
def specialSchemes : List String :=
  ["http", "https", "ws", "wss", "ftp", "file"]

/-- Scheme grammar: one ASCII letter then letters, digits, `+`, `-`, `.`. -/
def isSchemeChar (c : Char) : Bool :=
  c.isAlpha || c.isDigit || c = '+' || c = '-' || c = '.'

/-- A valid scheme is nonempty, starts with a letter, and uses only scheme
characters. -/
def isValidScheme : List Char → Bool
  | [] => false
  | c :: cs => c.isAlpha && cs.all isSchemeChar

/-- Characters terminating the authority section. -/
def authStop (c : Char) : Bool :=
  c = '/' || c = '?' || c = '#'

/-- Characters terminating the path section. -/
def pathStop (c : Char) : Bool :=
  c = '?' || c = '#'

/-- Parse the query / fragment tail that follows the path.  A `#` before any
`?` ends the query part, so `#cc?a=0` is all fragment. -/
def parseQueryFrag : List Char → Option String × Option String
  | '?' :: rest =>
    let (q, r) := spanNotChar (fun c => c = '#') rest
    (some (String.mk q),
      match r with
      | '#' :: f => some (String.mk f)
      | _ => none)
  | '#' :: rest => (none, some (String.mk rest))
  | _ => (none, none)

/-- Model of `url::Url::parse` (see the header comment for the modelled
subset).  Absolute URLs only: an input with no `:` fails, so `google.com`
is rejected just as the crate rejects it with `RelativeUrlWithoutBase`. -/
def Url.parse (s : String) : Option Url :=
  match splitAtChar ':' s.data with
  | none => none
  | some (schemeCs, rest) =>
    if isValidScheme schemeCs then
      let scheme := String.mk (schemeCs.map lowerChar)
      match rest with
      | '/' :: '/' :: rest2 =>
        let (authCs, rest3) := spanNotChar authStop rest2
        let host := String.mk (authCs.map lowerChar)
        if host = "" && scheme ∈ specialSchemes then none
        else
          let (pathCs, rest4) := spanNotChar pathStop rest3
          let path0 := String.mk pathCs
          let path := if path0 = "" && scheme ∈ specialSchemes then "/" else path0
          let (query, fragment) := parseQueryFrag rest4
          some ⟨scheme, some host, path, query, fragment⟩
      | _ =>
        let (pathCs, rest4) := spanNotChar pathStop rest
        let (query, fragment) := parseQueryFrag rest4
        some ⟨scheme, none, String.mk pathCs, query, fragment⟩
    else none

/-- Serialization (the crate's `Url::to_string`). -/
def Url.toUrlString (u : Url) : String :=
  String.mk (u.scheme.data ++ [':'] ++
    (match u.host with
     | some h => ['/', '/'] ++ h.data
     | none => []) ++
    u.path.data ++
    (match u.query with
     | some q => ['?'] ++ q.data
     | none => []) ++
    (match u.fragment with
     | some f => ['#'] ++ f.data
     | none => []))

/-- The crate's `Url::domain()`: the authority host when one is present and
nonempty (IP-address hosts, on which the crate answers `None`, are outside
the modelled subset). -/
def Url.domain (u : Url) : Option String :=
  match u.host with
  | some h => if h = "" then none else some h
  | none => none

/-- Embedding of `normalize_url` (workspaces/utils/src/url.rs lines 3-15):
parse, drop query and fragment, and pair the URL with its domain; `none`
when parsing fails or no domain exists. -/
def normalize_url (url : String) : Option (Url × String) :=
  match Url.parse url with
  | some u0 =>
    let u : Url := { u0 with query := none, fragment := none }
    match u.domain with
    | some d => some (u, d)
    | none => none
  | none => none

/-- Embedding of `is_crawlable_url` (workspaces/crawler/src/utils.rs lines
7-16): the URL must parse and its scheme must be `http` or `https`. -/
def is_crawlable_url (link : String) : Bool :=
  match Url.parse link with
  | some u => !(u.scheme ≠ "http" && u.scheme ≠ "https")
  | none => false

example : normalize_url "https://google.com/about#cc?a=0" =
    some (⟨"https", some "google.com", "/about", none, none⟩, "google.com") := by
  decide

example : normalize_url "google.com" = none := by decide

example : (normalize_url "https://google.com").map (fun p => p.1.toUrlString) =
    some "https://google.com/" := by decide

example : (normalize_url "https://google.com/about?a").map (fun p => p.1.toUrlString) =
    some "https://google.com/about" := by decide

example : normalize_url "/google.com" = none := by decide

example : normalize_url "//google.com" = none := by decide

example : is_crawlable_url "https://google.com/hello" = true := by decide

example : is_crawlable_url "sftp://google.com" = false := by decide

example : (normalize_url "ftp://example.com/x").isSome = true := by decide

/-! ### Content-type classification (`crawler/src/utils.rs`, `worker.rs`) -/

/-- Embedding of `get_content_type` (crawler/src/utils.rs lines 32-52).  The
header is `some value` when a `content-type` header is present (`value` its
text; the `to_str` failure branch of the source maps a non-ASCII header to
`""` and therefore also lands in the `none` result). -/
def get_content_type (header : Option String) (url : String) : Option String :=
  match header with
  | some value =>
    let clean_type := trimStr (String.mk ((splitAllChar ';' value.data).headD []))
    if clean_type = "text/html" then some "text/html" else none
  | none =>
    if endsWithStr url ".html" || endsWithStr url ".htm" then some "text/html"
    else none

/-- Outcome of the response-classification part of `crawl_page`
(worker.rs lines 199-231), before the body is scraped. -/
inductive ResponseDecision where
  | serverError
  | notCrawlable
  | redirect (domain : String) (url : String)
  | invalidContentType
  | parsePage
deriving DecidableEq, Repr

/-- Embedding of the classification steps of `crawl_page` (worker.rs lines
203-229): 5xx, non-2xx, redirect detection via `normalize_url` on the final
response URL, then the content-type gate. -/
def classify_response (status : Nat) (responseUrl taskUrl : String)
    (header : Option String) : ResponseDecision :=
  if 500 ≤ status ∧ status ≤ 599 then .serverError
  else if ¬ (200 ≤ status ∧ status ≤ 299) then .notCrawlable
  else
    match normalize_url responseUrl with
    | some (newUrl, domain) =>
      if newUrl.toUrlString ≠ taskUrl then .redirect domain newUrl.toUrlString
      else
        match get_content_type header taskUrl with
        | some ct => if ct ≠ "text/html" then .invalidContentType else .parsePage
        | none => .parsePage
    | none => .notCrawlable

example : classify_response 503 "https://a.com/" "https://a.com/" none = .serverError := by
  decide

example : classify_response 404 "https://a.com/" "https://a.com/" none = .notCrawlable := by
  decide

example : classify_response 200 "https://a.com/x" "http://a.com/x" none =
    .redirect "a.com" "https://a.com/x" := by decide

example : classify_response 200 "https://a.com/x.html" "https://a.com/x.html"
    (some "text/html; charset=utf-8") = .parsePage := by decide

/-! ### Link extension deny-list (`crawler/src/scraper.rs` lines 6-86) -/

/-- The suffixes of the `LINK_SELECTOR` `:not([href$=...])` chain, in source
order (note `.ptt` — the source's literal spelling). -/
def LINK_DENY_SUFFIXES : List String :=
  [".jpg", ".jpeg", ".png", ".gif", ".svg", ".webp", ".mp4", ".avi", ".mov",
   ".wmv", ".flv", ".mp3", ".wav", ".wma", ".wpl", ".mpa", ".ogg", ".woff",
   ".woff2", ".ttf", ".otf", ".swf", ".xap", ".ico", ".eot", ".bmp", ".psd",
   ".tiff", ".tif", ".heic", ".heif", ".mkv", ".webm", ".m4v", ".aac",
   ".flac", ".m4a", ".aiff", ".pdf", ".eps", ".yaml", ".yml", ".xml",
   ".css", ".js", ".txt", ".tar", ".doc", ".docx", ".zip", ".deb", ".pkg",
   ".tar.gz", ".rpm", ".z", ".7z", ".arj", ".rar", ".bin", ".msi", ".sh",
   ".bat", ".dmg", ".iso", ".toast", ".vcd", ".csv", ".log", ".sql", ".db",
   ".exe", ".rss", ".key", ".odp", ".pps", ".ptt", ".pptx", ".dump"]

/-- Whether an `a[href]` element passes the scraper's link selector: the raw
href must not end in any deny-listed suffix (case-sensitive, as CSS `$=`
attribute matching is). -/
def link_selected (href : String) : Bool :=
  LINK_DENY_SUFFIXES.all (fun s => !endsWithStr href s)

example : link_selected "https://a.com/x.exe" = false := by decide

example : link_selected "https://a.com/page" = true := by decide

/-! ### Favicon row construction (`worker.rs` lines 270-275) -/

/-- The favicon URL `crawl_page` passes to `save_page`: the scraped one when
present and at most 2048 bytes, else the `/favicon.ico` fallback
(`take_if(|x| x.len() <= 2048).unwrap_or(...)`). -/
def favicon_for (scraped_favicon : Option String) (domain : String) : String :=
  match scraped_favicon with
  | some x =>
    if x.utf8ByteSize ≤ 2048 then x
    else "https://" ++ domain ++ "/favicon.ico"
  | none => "https://" ++ domain ++ "/favicon.ico"

/-! ### Persistent store model (`database` workspace as the crawler uses it) -/

/-- `NewPage` (database/src/models.rs). -/
structure NewPage where
  domain : String
  url : String
  title : Option String
  favicon_id : Int
  content : Option String
  body : Option String
  body_length : Int
  content_type : String
  response_time : Int
  status_code : Int
  last_crawled : Int
  last_indexed : Option Int
  seo_score : Int
  meta_description : Option String
  meta_keywords : Option String
  meta_theme_color : Option String
  meta_og_image : Option String
deriving DecidableEq, Repr

/-- A `queue` table row (`QueuedPage` in database/src/models.rs). -/
structure QueuedPage where
  id : Int
  domain : String
  url : String
  timestamp : Int
deriving DecidableEq, Repr

/-- A row to insert into `queue` (`NewQueuedPage`); the table assigns the id. -/
structure NewQueuedPage where
  domain : String
  url : String
  timestamp : Int
deriving DecidableEq, Repr

/-- The tables the worker writes: `favicons(id, url unique)`, `pages`,
`queue(url unique)`. -/
structure CrawlerDb where
  favicons : List (Int × String)
  pages : List NewPage
  queue : List QueuedPage
deriving DecidableEq, Repr

/-- A fresh serial id for a queue insert. -/
def freshQueueId (q : List QueuedPage) : Int :=
  1 + (q.map (fun r => r.id)).foldr max 0

/-- `INSERT INTO queue ... ON CONFLICT(url) DO NOTHING`. -/
def queue_insert (q : List QueuedPage) (row : NewQueuedPage) : List QueuedPage :=
  if q.any (fun r => r.url = row.url) then q
  else q ++ [⟨freshQueueId q, row.domain, row.url, row.timestamp⟩]

/-- Favicon upsert by unique `url`, returning the id
(worker.rs lines 293-300). -/
def upsert_favicon (db : CrawlerDb) (url : String) : Int × CrawlerDb :=
  match db.favicons.find? (fun p => p.2 = url) with
  | some p => (p.1, db)
  | none =>
    let fid : Int := db.favicons.length + 1
    (fid, { db with favicons := db.favicons ++ [(fid, url)] })

/-- Embedding of `save_page` (worker.rs lines 287-327): upsert the favicon,
insert the page with the returned `favicon_id`, then bulk-insert the links
(pairs `(domain, url)`) whose url is at most 2048 bytes, each with
`ON CONFLICT(url) DO NOTHING` and the current timestamp. -/
def save_page (db : CrawlerDb) (page : NewPage) (favicon_url : String)
    (links : List (String × String)) (now : Int) : CrawlerDb :=
  let fdb := upsert_favicon db favicon_url
  let db2 := { fdb.2 with pages := fdb.2.pages ++ [{ page with favicon_id := fdb.1 }] }
  { db2 with
    queue := (links.filter (fun x => x.2.utf8ByteSize ≤ 2048)).foldl
      (fun q x => queue_insert q ⟨x.1, x.2, now⟩) db2.queue }

/-- Embedding of `save_to_queue` (worker.rs lines 330-346): remove the URL
from the visited set, then insert a queue row with the current timestamp. -/
def save_to_queue (visited : List String) (q : List QueuedPage)
    (domain url : String) (now : Int) : List String × List QueuedPage :=
  (visited.erase url, queue_insert q ⟨domain, url, now⟩)

/-! ### Queue dequeue (`crawler.rs` lines 162-189)

The SQL selects the 10 domains with greatest `MAX(timestamp)`, takes up to
100 rows of those domains by `timestamp DESC`, and deletes exactly the
selected rows (by id) in the same statement. -/

/-- `MAX(timestamp)` of a domain's rows (`⊥` when the domain has none). -/
def domainMax (q : List QueuedPage) (d : String) : WithBot Int :=
  ((q.filter (fun r => r.domain = d)).map (fun r => r.timestamp)).maximum

/-- The distinct domains present in the queue. -/
def queueDomains (q : List QueuedPage) : List String :=
  (q.map (fun r => r.domain)).dedup

/-- Ordering of domains by greatest `MAX(timestamp)` first. -/
def domMaxGE (q : List QueuedPage) (d e : String) : Prop :=
  domainMax q e ≤ domainMax q d

instance (q : List QueuedPage) : DecidableRel (domMaxGE q) := fun d e =>
  inferInstanceAs (Decidable (domainMax q e ≤ domainMax q d))

instance (q : List QueuedPage) : IsTotal String (domMaxGE q) :=
  ⟨fun d e => le_total (domainMax q e) (domainMax q d)⟩

instance (q : List QueuedPage) : IsTrans String (domMaxGE q) :=
  ⟨fun _ _ _ h1 h2 => le_trans h2 h1⟩

/-- The `recent_domains` CTE: up to 10 domains, greatest max-timestamp
first. -/
def recent_domains (q : List QueuedPage) : List String :=
  (List.insertionSort (domMaxGE q) (queueDomains q)).take 10

/-- Ordering of queue rows by timestamp descending. -/
def tsDesc (a b : QueuedPage) : Prop :=
  b.timestamp ≤ a.timestamp

instance : DecidableRel tsDesc := fun a b =>
  inferInstanceAs (Decidable (b.timestamp ≤ a.timestamp))

instance : IsTotal QueuedPage tsDesc :=
  ⟨fun a b => le_total b.timestamp a.timestamp⟩

instance : IsTrans QueuedPage tsDesc :=
  ⟨fun _ _ _ h1 h2 => le_trans h2 h1⟩

/-- The `selected` CTE: rows of the recent domains, timestamp descending,
first 100. -/
def dequeue_selected (q : List QueuedPage) : List QueuedPage :=
  (List.insertionSort tsDesc
    (q.filter (fun r => decide (r.domain ∈ recent_domains q)))).take 100

/-- Embedding of `Crawler::dequeue`: the returned batch together with the
table contents after the `DELETE ... WHERE id IN (SELECT id FROM selected)`,
as the one atomic statement the source issues. -/
def dequeue (q : List QueuedPage) : List QueuedPage × List QueuedPage :=
  let sel := dequeue_selected q
  (sel, q.filter (fun r => decide (r.id ∉ sel.map (fun s => s.id))))

example :
    dequeue [⟨1, "a.com", "https://a.com/1", 10⟩, ⟨2, "b.com", "https://b.com/2", 20⟩] =
      ([⟨2, "b.com", "https://b.com/2", 20⟩, ⟨1, "a.com", "https://a.com/1", 10⟩], []) := by
  decide

/-! ### robots.txt evaluation (model of the `robotstxt` dependency)

`Website::is_crawlable` delegates to `robotstxt::DefaultMatcher`.  The model
below implements the standard group/rule semantics that matcher applies:
groups of `User-agent` lines each followed by `Allow`/`Disallow` rules,
specific-agent groups shadowing the `*` groups, prefix rule matching with
the longest matching rule deciding (allow winning ties), allow when nothing
matches.  It reproduces the expectations of the repository's own
`website.rs` tests, checked by examples below. -/

structure RobotsRule where
  allow : Bool
  path : String
deriving DecidableEq, Repr

structure RobotsGroup where
  agents : List String
  rules : List RobotsRule
deriving DecidableEq, Repr

/-- Classification of one robots.txt line. -/
inductive RobotsLine where
  | userAgent (a : String)
  | rule (r : RobotsRule)
  | other
deriving DecidableEq, Repr

/-- Drop an end-of-line `#` comment. -/
def stripComment (cs : List Char) : List Char :=
  (spanNotChar (fun c => c = '#') cs).1

/-- Parse one robots.txt line: a case-insensitive `user-agent`, `allow` or
`disallow` key with a trimmed value (an empty `allow`/`disallow` value
imposes no restriction and yields no rule). -/
def robotsLineKind (line : List Char) : RobotsLine :=
  match splitAtChar ':' (stripComment line) with
  | none => .other
  | some (key, val) =>
    let k := lowerStr (trimStr (String.mk key))
    let v := trimStr (String.mk val)
    if k = "user-agent" then .userAgent v
    else if k = "allow" then (if v = "" then .other else .rule ⟨true, v⟩)
    else if k = "disallow" then (if v = "" then .other else .rule ⟨false, v⟩)
    else .other

/-- Group the lines: consecutive `user-agent` lines open a group that the
following rules attach to. -/
def parseRobotsAux : List (List Char) → Option RobotsGroup → Bool → List RobotsGroup
  | [], cur, _ => cur.toList
  | l :: ls, cur, lastUA =>
    match robotsLineKind l with
    | .userAgent a =>
      if lastUA then
        match cur with
        | some g => parseRobotsAux ls (some ⟨g.agents ++ [a], g.rules⟩) true
        | none => parseRobotsAux ls (some ⟨[a], []⟩) true
      else cur.toList ++ parseRobotsAux ls (some ⟨[a], []⟩) true
    | .rule r =>
      match cur with
      | some g => parseRobotsAux ls (some ⟨g.agents, g.rules ++ [r]⟩) false
      | none => parseRobotsAux ls none false
    | .other => parseRobotsAux ls cur lastUA

def parseRobots (s : String) : List RobotsGroup :=
  parseRobotsAux (splitAllChar '\n' s.data) none false

/-- A named (non-`*`) group agent matching the crawler's agent,
case-insensitively. -/
def agentMatchesSpecific (a reqAgent : String) : Bool :=
  a ≠ "*" && lowerStr a = lowerStr reqAgent

/-- The rules that apply to `agent`: those of its named groups when any
exist, else those of the `*` groups. -/
def applicable_rules (groups : List RobotsGroup) (agent : String) : List RobotsRule :=
  let specific := groups.filter (fun g => g.agents.any (fun a => agentMatchesSpecific a agent))
  if specific.isEmpty then
    ((groups.filter (fun g => g.agents.any (fun a => a = "*"))).map (fun g => g.rules)).flatten
  else (specific.map (fun g => g.rules)).flatten

/-- The matcher accepts either a bare path or a full URL (it extracts the
path from the latter); `is_crawlable` passes the full task URL. -/
def robots_path_of (url : String) : String :=
  match Url.parse url with
  | some u =>
    match u.host with
    | some _ => u.path
    | none => url
  | none => url

def ruleMatches (r : RobotsRule) (path : String) : Bool :=
  startsWithStr path r.path

/-- The most specific (longest) matching rule, allow winning length ties. -/
def best_rule (rules : List RobotsRule) (path : String) : Option RobotsRule :=
  rules.foldl
    (fun best r =>
      if ruleMatches r path then
        match best with
        | none => some r
        | some b =>
          if b.path.length < r.path.length then some r
          else if b.path.length = r.path.length && r.allow && !b.allow then some r
          else some b
      else best)
    none

/-- `DefaultMatcher::one_agent_allowed_by_robots`. -/
def robots_allowed (robots agent url : String) : Bool :=
  match best_rule (applicable_rules (parseRobots robots) agent) (robots_path_of url) with
  | some r => r.allow
  | none => true

/-! ### Per-domain state (`crawler/src/website.rs`) -/

/-- `ROBOTS_FETCH_COOLDOWN` (website.rs line 6), in milliseconds. -/
def ROBOTS_FETCH_COOLDOWN : Nat := 86400000

/-- `DOMAIN_CRAWL_COOLDOWN` (worker.rs line 19), in milliseconds. -/
def DOMAIN_CRAWL_COOLDOWN : Nat := 10000

/-- `Website` (website.rs lines 8-13); instants are modelled as naturals
counting milliseconds. -/
structure Website where
  domain : String
  robots : Option String
  last_robots_fetch : Option Nat
  last_crawl : Option Nat
deriving DecidableEq, Repr

def Website.new (d : String) : Website :=
  ⟨d, none, none, none⟩

/-- `Website::should_fetch_robots` (website.rs lines 25-34). -/
def Website.should_fetch_robots (w : Website) (now : Nat) : Bool :=
  match w.last_robots_fetch with
  | some t => ROBOTS_FETCH_COOLDOWN ≤ now - t
  | none => true

/-- `Website::set_robots` (website.rs lines 55-58): stores the body and
stamps `last_robots_fetch`. -/
def Website.set_robots (w : Website) (text : Option String) (now : Nat) : Website :=
  { w with last_robots_fetch := some now, robots := text }

/-- `Website::is_crawlable` (website.rs lines 60-67): no stored robots means
allowed. -/
def Website.is_crawlable (w : Website) (ua url : String) : Bool :=
  match w.robots with
  | some robots => robots_allowed robots ua url
  | none => true

example :
    (Website.mk "google.com"
        (some "User-agent: *\nDisallow: /api\n\nSitemap: https://google.com/sitemap.xml")
        none none).is_crawlable "Epsilon" "/" = true := by decide

example :
    (Website.mk "google.com"
        (some "User-agent: *\nDisallow: /api\n\nSitemap: https://google.com/sitemap.xml")
        none none).is_crawlable "Epsilon" "/hello" = true := by decide

example :
    (Website.mk "google.com"
        (some "User-agent: *\nDisallow: /api\n\nSitemap: https://google.com/sitemap.xml")
        none none).is_crawlable "Epsilon" "/api" = false := by decide

example :
    (Website.mk "google.com"
        (some "User-agent: *\nDisallow: /api\n\nSitemap: https://google.com/sitemap.xml")
        none none).is_crawlable "Epsilon" "/api/v0" = false := by decide

example :
    (Website.mk "google.com"
        (some "User-agent: *\nDisallow: /api\n\nUser-agent: Epsilon\nDisallow: /home\n\nSitemap: https://google.com/sitemap.xml")
        none none).is_crawlable "Other" "/home" = true := by decide

example :
    (Website.mk "google.com"
        (some "User-agent: *\nDisallow: /api\n\nUser-agent: Epsilon\nDisallow: /home\n\nSitemap: https://google.com/sitemap.xml")
        none none).is_crawlable "Other" "/api" = false := by decide

example :
    (Website.mk "google.com"
        (some "User-agent: *\nDisallow: /api\n\nUser-agent: Epsilon\nDisallow: /home\n\nSitemap: https://google.com/sitemap.xml")
        none none).is_crawlable "Epsilon" "/home" = false := by decide

example :
    (Website.mk "google.com"
        (some "User-agent: *\nDisallow: /api\n\nUser-agent: Epsilon\nDisallow: /home\n\nSitemap: https://google.com/sitemap.xml")
        none none).is_crawlable "Epsilon" "/api" = true := by decide

/-! ### The politeness check (`Worker::can_crawl`, worker.rs lines 64-108) -/

/-- Outcome of the politeness check. -/
inductive Politeness where
  | dropRobots
  | reenqueueCooldown
  | proceed
deriving DecidableEq, Repr

/-- The decision part of `can_crawl` after any robots refresh (worker.rs
lines 83-107): robots gate, then the 10 s domain cooldown, then commit
`last_crawl := now` and proceed. -/
def crawl_decision (w : Website) (now : Nat) (ua url : String) : Politeness × Website :=
  if !w.is_crawlable ua url then (.dropRobots, w)
  else
    match w.last_crawl with
    | some t =>
      if now - t < DOMAIN_CRAWL_COOLDOWN then (.reenqueueCooldown, w)
      else (.proceed, { w with last_crawl := some now })
    | none => (.proceed, { w with last_crawl := some now })

/-- The robots-fetch outcome: `.ok body` when the HTTP attempt completed
(body, or `none` for a non-success status or an HTML-looking body), `.error`
when the request itself failed.  `set_robots` runs only in the `.ok` case
(worker.rs lines 76-78). -/
def apply_fetch_result (w : Website) (r : Except Unit (Option String)) (now : Nat) : Website :=
  match r with
  | .ok robots => w.set_robots robots now
  | .error _ => w

/-- Embedding of `Worker::can_crawl`: refresh robots when due (the `fetch`
argument stands for the network's answer), then decide.  The third
component records whether a robots fetch was performed. -/
def can_crawl (w : Website) (now : Nat) (fetch : Except Unit (Option String))
    (ua url : String) : Politeness × Website × Bool :=
  if w.should_fetch_robots now then
    let d := crawl_decision (apply_fetch_result w fetch now) now ua url
    (d.1, d.2, true)
  else
    let d := crawl_decision w now ua url
    (d.1, d.2, false)

/-- One politeness-check invocation: the wall-clock instant, the network's
robots answer (used only if a fetch is due), and the task URL. -/
structure PolitenessCall where
  now : Nat
  fetch : Except Unit (Option String)
  url : String

/-- Iterate `can_crawl` over a sequence of calls against one domain,
returning the final state and each call's decision with its instant. -/
def run_can_crawl (ua : String) (w : Website) :
    List PolitenessCall → Website × List (Politeness × Nat)
  | [] => (w, [])
  | c :: cs =>
    let r := can_crawl w c.now c.fetch ua c.url
    let rest := run_can_crawl ua r.2.1 cs
    (rest.1, (r.1, c.now) :: rest.2)

/-! ### One worker iteration before the GET (`Worker::crawl`, worker.rs
lines 110-121) -/

/-- `Task` (crawler.rs lines 22-27). -/
structure Task where
  id : Int
  domain : String
  url : String
deriving DecidableEq, Repr

/-- What the worker does with a received task before any page GET. -/
inductive TaskAction where
  | skipVisited
  | dropRobots
  | reenqueueCooldown
  | proceedFetch
deriving DecidableEq, Repr

/-- Embedding of the pre-GET part of the worker loop: the VisitedSet
contains-check, the politeness check, and — only when it proceeds — the
VisitedSet insert.  The cooldown branch performs `save_to_queue`'s
`visited.remove` (worker.rs line 332); the queue write itself is modelled by
`save_to_queue`. -/
def process_task (visited : List String) (w : Website) (now : Nat)
    (fetch : Except Unit (Option String)) (ua : String) (t : Task) :
    List String × Website × TaskAction :=
  if t.url ∈ visited then (visited, w, .skipVisited)
  else
    let r := can_crawl w now fetch ua t.url
    match r.1 with
    | .dropRobots => (visited, r.2.1, .dropRobots)
    | .reenqueueCooldown => (visited.erase t.url, r.2.1, .reenqueueCooldown)
    | .proceed => (t.url :: visited, r.2.1, .proceedFetch)

/-! ### Worker interleaving model (for the VisitedSet dispatch guard)

The crawler runs N worker tasks on one cooperative scheduler.  A worker's
processing of a task (worker.rs 110-121) is synchronous — hence atomic —
except across the robots-fetch await inside `can_crawl` and across the page
GET itself.  The model below has exactly those suspension points: `polite`
is the whole contains-check / politeness / insert / GET-start block when no
robots fetch is due; `fetchStart`/`fetchEnd` split that block around the
robots fetch, re-checking nothing in between, as the code does; `getEnd`
finishes a page GET with one of the worker-loop outcomes.  `tick` lets the
wall clock advance between steps.  The `Bool` index gates the robots-fetch
steps so that the same relation also describes the fetch-free executions. -/

/-- What a worker task is doing. -/
inductive WPhase where
  | idle
  | robotsWait (t : Task)
  | fetching (t : Task) (since : Nat)
deriving DecidableEq, Repr

/-- Shared crawler state: clock, VisitedSet, domain registry, worker
phases. -/
structure Sys where
  now : Nat
  visited : List String
  sites : List (String × Website)
  workers : Nat → WPhase

/-- `websites.entry(domain).or_insert(Website::new(domain))`, read side. -/
def getSite (sites : List (String × Website)) (d : String) : Website :=
  match sites.lookup d with
  | some w => w
  | none => Website.new d

/-- Store a domain's state back into the registry. -/
def putSite (sites : List (String × Website)) (d : String) (w : Website) :
    List (String × Website) :=
  (d, w) :: sites.filter (fun p => decide (p.1 ≠ d))

/-- Apply the politeness decision for worker `i` handling `t`: robots-drop
→ back to idle; cooldown → `save_to_queue`'s visited-remove, idle; proceed
→ VisitedSet insert and the GET begins now. -/
def applyDecision (s : Sys) (i : Nat) (t : Task) (dw : Politeness × Website) : Sys :=
  let sites := putSite s.sites t.domain dw.2
  match dw.1 with
  | .dropRobots =>
    { s with sites := sites, workers := Function.update s.workers i .idle }
  | .reenqueueCooldown =>
    { s with sites := sites, visited := s.visited.erase t.url,
             workers := Function.update s.workers i .idle }
  | .proceed =>
    { s with sites := sites, visited := t.url :: s.visited,
             workers := Function.update s.workers i (.fetching t s.now) }

/-- Classification of a finished page GET (worker.rs 122-188). -/
inductive FetchOutcome where
  | success
  | retry
  | drop
  | redirect (newUrl : String)

/-- End of worker `i`'s GET for `t`: success persists the page (tables are
outside this model) keeping the visited entry; a transient failure
re-enqueues via `save_to_queue` (removing the entry); a permanent failure
drops keeping the entry; redirect discovery re-enqueues the new URL unless
it is already visited. -/
def applyOutcome (s : Sys) (i : Nat) (t : Task) (o : FetchOutcome) : Sys :=
  let s0 : Sys := { s with workers := Function.update s.workers i .idle }
  match o with
  | .success => s0
  | .retry => { s0 with visited := s0.visited.erase t.url }
  | .drop => s0
  | .redirect v =>
    if v ∈ s0.visited then s0 else { s0 with visited := s0.visited.erase v }

/-- One scheduler step.  `Step ua true` is the full system; `Step ua false`
rules out the robots-fetch suspension, making each politeness block
atomic. -/
inductive Step (ua : String) : Bool → Sys → Sys → Prop where
  | tick (fa : Bool) (s : Sys) (n : Nat) :
      Step ua fa s { s with now := s.now + n }
  | skipVisited (fa : Bool) (s : Sys) (i : Nat) (t : Task)
      (hidle : s.workers i = .idle) (hv : t.url ∈ s.visited) :
      Step ua fa s s
  | polite (fa : Bool) (s : Sys) (i : Nat) (t : Task)
      (hidle : s.workers i = .idle) (hv : t.url ∉ s.visited)
      (hnf : (getSite s.sites t.domain).should_fetch_robots s.now = false) :
      Step ua fa s
        (applyDecision s i t (crawl_decision (getSite s.sites t.domain) s.now ua t.url))
  | fetchStart (s : Sys) (i : Nat) (t : Task)
      (hidle : s.workers i = .idle) (hv : t.url ∉ s.visited)
      (hf : (getSite s.sites t.domain).should_fetch_robots s.now = true) :
      Step ua true s
        { s with sites := putSite s.sites t.domain (getSite s.sites t.domain),
                 workers := Function.update s.workers i (.robotsWait t) }
  | fetchEnd (s : Sys) (i : Nat) (t : Task) (r : Except Unit (Option String))
      (hw : s.workers i = .robotsWait t) :
      Step ua true s
        (applyDecision s i t
          (crawl_decision (apply_fetch_result (getSite s.sites t.domain) r s.now)
            s.now ua t.url))
  | getEnd (fa : Bool) (s : Sys) (i : Nat) (t : Task) (since : Nat) (o : FetchOutcome)
      (hw : s.workers i = .fetching t since) :
      Step ua fa s (applyOutcome s i t o)

/-- Multi-step reachability. -/
def Reachable (ua : String) (fa : Bool) : Sys → Sys → Prop :=
  Relation.ReflTransGen (Step ua fa)

/-- Two distinct workers have page GETs in flight for the same URL. -/
def concurrentSameUrl (s : Sys) : Prop :=
  ∃ i j t1 s1 t2 s2, i ≠ j ∧ s.workers i = WPhase.fetching t1 s1 ∧
    s.workers j = WPhase.fetching t2 s2 ∧ t1.url = t2.url

/-! ### Helper lemmas -/

theorem stringMk_data (s : String) : String.mk s.data = s := by
  cases s
  rfl

theorem lowerChar_cases (c : Char) :
    lowerChar c = c ∨ lowerChar c ∈
      ['a','b','c','d','e','f','g','h','i','j','k','l','m',
       'n','o','p','q','r','s','t','u','v','w','x','y','z'] := by
  unfold lowerChar
  split
  all_goals first | (right; decide) | (left; rfl)

theorem lowerChar_fix (c : Char) : lowerChar (lowerChar c) = lowerChar c := by
  rcases lowerChar_cases c with h | h
  · rw [h]; exact h
  · simp only [List.mem_cons, List.not_mem_nil, or_false] at h
    rcases h with h|h|h|h|h|h|h|h|h|h|h|h|h|h|h|h|h|h|h|h|h|h|h|h|h|h <;>
      (rw [h]; decide)

theorem lowerChar_map_fix (cs : List Char) :
    (cs.map lowerChar).map lowerChar = cs.map lowerChar := by
  induction cs with
  | nil => rfl
  | cons c cs ih => simp only [List.map_cons, lowerChar_fix, ih]

theorem isSchemeChar_lowerChar (c : Char) (h : isSchemeChar c = true) :
    isSchemeChar (lowerChar c) = true := by
  unfold lowerChar
  split
  all_goals first | decide | exact h

theorem isAlpha_lowerChar (c : Char) (h : c.isAlpha = true) :
    (lowerChar c).isAlpha = true := by
  unfold lowerChar
  split
  all_goals first | decide | exact h

theorem authStop_lowerChar (c : Char) : authStop (lowerChar c) = authStop c := by
  unfold lowerChar
  split
  all_goals first | decide | rfl

theorem isValidScheme_map_lower (cs : List Char) (h : isValidScheme cs = true) :
    isValidScheme (cs.map lowerChar) = true := by
  cases cs with
  | nil => exact absurd h (by decide)
  | cons c cs =>
    rw [List.map_cons]
    simp only [isValidScheme, Bool.and_eq_true, List.all_eq_true] at h ⊢
    refine ⟨isAlpha_lowerChar c h.1, ?_⟩
    intro x hx
    obtain ⟨y, hy, hxy⟩ := List.mem_map.mp hx
    subst hxy
    exact isSchemeChar_lowerChar y (h.2 y hy)

theorem isValidScheme_ne_colon (cs : List Char) (h : isValidScheme cs = true) :
    ∀ c ∈ cs, c ≠ ':' := by
  cases cs with
  | nil => exact absurd h (by decide)
  | cons c cs =>
    simp only [isValidScheme, Bool.and_eq_true, List.all_eq_true] at h
    intro x hx heq
    subst heq
    rcases List.mem_cons.mp hx with h1 | h1
    · rw [← h1] at h
      exact absurd h.1 (by decide)
    · exact absurd (h.2 _ h1) (by decide)

theorem spanNotChar_all_fst (p : Char → Bool) (cs : List Char) :
    ∀ c ∈ (spanNotChar p cs).1, p c = false := by
  induction cs with
  | nil => intro c hc; exact absurd hc (by simp [spanNotChar])
  | cons x xs ih =>
    intro c hc
    unfold spanNotChar at hc
    by_cases hx : p x = true
    · rw [if_pos hx] at hc
      exact absurd hc (by simp)
    · rw [if_neg hx] at hc
      dsimp only at hc
      rcases List.mem_cons.mp hc with h1 | h1
      · subst h1
        exact Bool.eq_false_iff.mpr hx
      · exact ih c h1

theorem spanNotChar_fst_append_snd (p : Char → Bool) (cs : List Char) :
    (spanNotChar p cs).1 ++ (spanNotChar p cs).2 = cs := by
  induction cs with
  | nil => rfl
  | cons x xs ih =>
    unfold spanNotChar
    by_cases hx : p x = true
    · rw [if_pos hx]
      rfl
    · rw [if_neg hx]
      dsimp only
      rw [List.cons_append, ih]

theorem spanNotChar_snd_head (p : Char → Bool) (cs : List Char) :
    (spanNotChar p cs).2 = [] ∨
      ∃ c cs', (spanNotChar p cs).2 = c :: cs' ∧ p c = true := by
  induction cs with
  | nil => exact Or.inl rfl
  | cons x xs ih =>
    unfold spanNotChar
    by_cases hx : p x = true
    · rw [if_pos hx]
      exact Or.inr ⟨x, xs, rfl, hx⟩
    · rw [if_neg hx]
      dsimp only
      exact ih

theorem spanNotChar_append (p : Char → Bool) (a b : List Char)
    (ha : ∀ c ∈ a, p c = false)
    (hb : b = [] ∨ ∃ c cs, b = c :: cs ∧ p c = true) :
    spanNotChar p (a ++ b) = (a, b) := by
  induction a with
  | nil =>
    rw [List.nil_append]
    rcases hb with h | ⟨c, cs, h, hc⟩
    · subst h; rfl
    · subst h
      unfold spanNotChar
      rw [if_pos hc]
  | cons x xs ih =>
    have hx : p x = false := ha x (List.mem_cons_self x xs)
    rw [List.cons_append]
    unfold spanNotChar
    rw [if_neg (by rw [hx]; exact Bool.false_ne_true)]
    dsimp only
    rw [ih (fun c hc => ha c (List.mem_cons_of_mem x hc))]

theorem splitAtChar_append (sep : Char) (a b : List Char)
    (ha : ∀ c ∈ a, c ≠ sep) :
    splitAtChar sep (a ++ sep :: b) = some (a, b) := by
  induction a with
  | nil =>
    rw [List.nil_append]
    unfold splitAtChar
    rw [if_pos rfl]
  | cons x xs ih =>
    have hx : x ≠ sep := ha x (List.mem_cons_self x xs)
    rw [List.cons_append]
    unfold splitAtChar
    rw [if_neg hx, ih (fun c hc => ha c (List.mem_cons_of_mem x hc))]

theorem spanNotChar_of_all (p : Char → Bool) (cs : List Char)
    (h : ∀ c ∈ cs, p c = false) : spanNotChar p cs = (cs, []) := by
  have happ := spanNotChar_append p cs [] h (Or.inl rfl)
  rwa [List.append_nil] at happ

theorem spanNotChar_cons_false (p : Char → Bool) (c : Char) (cs : List Char)
    (hc : p c = false) :
    spanNotChar p (c :: cs) = (c :: (spanNotChar p cs).1, (spanNotChar p cs).2) := by
  obtain ⟨l, r, hlr⟩ : ∃ l r, spanNotChar p cs = (l, r) := ⟨_, _, rfl⟩
  conv_lhs => unfold spanNotChar
  rw [if_neg (by rw [hc]; exact Bool.false_ne_true), hlr]

theorem spanNotChar_cons_true (p : Char → Bool) (c : Char) (cs : List Char)
    (hc : p c = true) : spanNotChar p (c :: cs) = ([], c :: cs) := by
  conv_lhs => unfold spanNotChar
  rw [if_pos hc]

/-- Shape invariant of parsed URLs that carry an authority host — exactly
the facts reparsing the serialization requires. -/
def UrlWF (u : Url) : Prop :=
  isValidScheme u.scheme.data = true ∧
  u.scheme.data.map lowerChar = u.scheme.data ∧
  ∃ h, u.host = some h ∧
    (∀ c ∈ h.data, authStop c = false) ∧
    h.data.map lowerChar = h.data ∧
    ¬(h = "" ∧ u.scheme ∈ specialSchemes) ∧
    (∀ c ∈ u.path.data, pathStop c = false) ∧
    (u.path.data = [] ∨ ∃ cs, u.path.data = '/' :: cs) ∧
    ¬(u.path = "" ∧ u.scheme ∈ specialSchemes)

/-- A successful parse with a host yields a well-formed URL. -/
theorem parse_wf (s : String) (u : Url) (hu : Url.parse s = some u)
    (hh : u.host.isSome = true) : UrlWF u := by
  unfold Url.parse at hu
  cases hsp : splitAtChar ':' s.data with
  | none => rw [hsp] at hu; exact absurd hu (by simp)
  | some pr =>
    obtain ⟨schemeCs, rest⟩ := pr
    rw [hsp] at hu
    dsimp only at hu
    by_cases hv : isValidScheme schemeCs = true
    case neg =>
      rw [if_neg hv] at hu
      exact absurd hu (by simp)
    rw [if_pos hv] at hu
    split at hu
    rotate_left
    · -- no authority: the parsed URL has no host, contradicting `hh`
      injection hu with hu'
      rw [← hu'] at hh
      simp at hh
    rename_i rest2
    obtain ⟨A, R3, hA⟩ : ∃ A R3, spanNotChar authStop rest2 = (A, R3) := ⟨_, _, rfl⟩
    rw [hA] at hu
    dsimp only at hu
    by_cases hg : (decide (String.mk (A.map lowerChar) = "") &&
        decide (String.mk (schemeCs.map lowerChar) ∈ specialSchemes)) = true
    case pos =>
      rw [if_pos hg] at hu
      exact absurd hu (by simp)
    rw [if_neg hg] at hu
    obtain ⟨PC, R4, hPC⟩ : ∃ PC R4, spanNotChar pathStop R3 = (PC, R4) := ⟨_, _, rfl⟩
    rw [hPC] at hu
    dsimp only at hu
    obtain ⟨Q, F, hQF⟩ : ∃ Q F, parseQueryFrag R4 = (Q, F) := ⟨_, _, rfl⟩
    rw [hQF] at hu
    dsimp only at hu
    injection hu with hu'
    subst hu'
    have hAall : ∀ c ∈ A, authStop c = false := by
      have hall := spanNotChar_all_fst authStop rest2
      rw [hA] at hall
      exact hall
    have hgg : ¬(String.mk (A.map lowerChar) = "" ∧
        String.mk (schemeCs.map lowerChar) ∈ specialSchemes) := by
      intro hand
      exact hg (by simp [hand.1, hand.2])
    refine ⟨isValidScheme_map_lower schemeCs hv, lowerChar_map_fix schemeCs,
      String.mk (A.map lowerChar), rfl, ?_, lowerChar_map_fix A, hgg, ?_, ?_, ?_⟩
    · intro c hc
      obtain ⟨y, hy, hyc⟩ := List.mem_map.mp hc
      subst hyc
      rw [authStop_lowerChar]
      exact hAall y hy
    · -- path characters
      dsimp only
      split
      · decide
      · have hall := spanNotChar_all_fst pathStop R3
        rw [hPC] at hall
        exact hall
    · -- path is empty or starts with `/`
      dsimp only
      split
      · exact Or.inr ⟨[], rfl⟩
      rename_i hcond
      have hR3 := spanNotChar_snd_head authStop rest2
      rw [hA] at hR3
      rcases hR3 with h3 | ⟨c, cs', h3, hc⟩
      · subst h3
        rw [show spanNotChar pathStop [] = ([], []) from rfl] at hPC
        injection hPC with h1 _
        subst h1
        exact Or.inl rfl
      · subst h3
        have hc' : c = '/' ∨ c = '?' ∨ c = '#' := by
          simpa [authStop, or_assoc] using hc
        rcases hc' with h4 | h4 | h4
        · subst h4
          rw [spanNotChar_cons_false pathStop '/' cs' (by decide)] at hPC
          injection hPC with h1 _
          subst h1
          exact Or.inr ⟨_, rfl⟩
        · subst h4
          rw [spanNotChar_cons_true pathStop '?' cs' (by decide)] at hPC
          injection hPC with h1 _
          subst h1
          exact Or.inl rfl
        · subst h4
          rw [spanNotChar_cons_true pathStop '#' cs' (by decide)] at hPC
          injection hPC with h1 _
          subst h1
          exact Or.inl rfl
    · -- an empty path implies a non-special scheme
      dsimp only
      split
      · intro hand
        exact absurd hand.1 (by decide)
      · rename_i hcond
        intro hand
        exact hcond (by simp [hand.1, hand.2])

/-- Reparsing the serialization of a well-formed query-and-fragment-free URL
recovers it exactly. -/
theorem parse_roundtrip (u : Url) (hwf : UrlWF u) (hq : u.query = none)
    (hf : u.fragment = none) : Url.parse u.toUrlString = some u := by
  obtain ⟨hv, hsl, h, hh, hhc, hhl, hhg, hpc, hph, hpg⟩ := hwf
  have hdata : (u.toUrlString).data =
      u.scheme.data ++ ':' :: ('/' :: '/' :: (h.data ++ u.path.data)) := by
    unfold Url.toUrlString
    rw [hh, hq, hf]
    simp
  have hS : String.mk (u.scheme.data.map lowerChar) = u.scheme := by
    rw [hsl, stringMk_data]
  have hH : String.mk (h.data.map lowerChar) = h := by
    rw [hhl, stringMk_data]
  have hb2 : u.path.data = [] ∨ ∃ c cs, u.path.data = c :: cs ∧ authStop c = true := by
    rcases hph with h1 | ⟨cs, h1⟩
    · exact Or.inl h1
    · exact Or.inr ⟨'/', cs, h1, by decide⟩
  unfold Url.parse
  rw [hdata, splitAtChar_append ':' u.scheme.data _ (isValidScheme_ne_colon _ hv)]
  dsimp only
  rw [if_pos hv]
  split
  rotate_left
  · rename_i hne
    exact absurd rfl (hne (h.data ++ u.path.data))
  rename_i rest2 heq
  injection heq with h1 heq
  injection heq with h2 heq
  subst heq
  rw [spanNotChar_append authStop h.data u.path.data hhc hb2]
  dsimp only
  rw [hS, hH]
  rw [if_neg (fun hg => hhg (by simpa using hg))]
  rw [spanNotChar_of_all pathStop u.path.data hpc]
  dsimp only
  rw [stringMk_data]
  rw [if_neg (fun hg => hpg (by simpa using hg))]
  show some ⟨u.scheme, some h, u.path, none, none⟩ = some u
  cases u with
  | mk S H P Q F =>
    dsimp only at hh hq hf
    rw [hh, hq, hf]

/-- Inversion of a successful `normalize_url`. -/
theorem normalize_url_inv (u : String) (v : Url) (d : String)
    (h : normalize_url u = some (v, d)) :
    ∃ v0, Url.parse u = some v0 ∧ v = { v0 with query := none, fragment := none } ∧
      v.host = some d ∧ d ≠ "" ∧ v.query = none ∧ v.fragment = none := by
  unfold normalize_url at h
  cases hp : Url.parse u with
  | none => rw [hp] at h; exact absurd h (by simp)
  | some v0 =>
    rw [hp] at h
    dsimp only at h
    cases hd : ({ v0 with query := none, fragment := none } : Url).domain with
    | none => rw [hd] at h; exact absurd h (by simp)
    | some d0 =>
      rw [hd] at h
      dsimp only at h
      simp only [Option.some.injEq, Prod.mk.injEq] at h
      obtain ⟨hv, hdd⟩ := h
      subst hv
      subst hdd
      unfold Url.domain at hd
      have hd2 : (match v0.host with
          | some h => if h = "" then none else some h
          | none => none) = some d0 := hd
      have hfacts : v0.host = some d0 ∧ d0 ≠ "" := by
        cases hh0 : v0.host with
        | none => rw [hh0] at hd2; exact absurd hd2 (by simp)
        | some hst =>
          rw [hh0] at hd2
          dsimp only at hd2
          by_cases hne : hst = ""
          · rw [if_pos hne] at hd2
            exact absurd hd2 (by simp)
          · rw [if_neg hne] at hd2
            injection hd2 with hd'
            subst hd'
            exact ⟨rfl, hne⟩
      refine ⟨v0, rfl, rfl, ?_, hfacts.2, rfl, rfl⟩
      show v0.host = some d0
      exact hfacts.1

/-! ### Claim C8 -/

/-- C8: canonicalization is idempotent — whenever `normalize_url` succeeds,
running it again on the returned canonical URL string succeeds and yields
the very same canonical URL and domain. -/
theorem C8_canonicalize_idempotent (u : String) (v : Url) (d : String)
    (h : normalize_url u = some (v, d)) :
    normalize_url v.toUrlString = some (v, d) := by
  obtain ⟨v0, hp, hv, hhost, hdne, hq, hf⟩ := normalize_url_inv u v d h
  have hwf : UrlWF v := by
    have hwf0 : UrlWF v0 := by
      refine parse_wf u v0 hp ?_
      have : v.host = v0.host := by rw [hv]
      rw [this] at hhost
      rw [hhost]
      rfl
    subst hv
    exact hwf0
  have hrt := parse_roundtrip v hwf hq hf
  unfold normalize_url
  rw [hrt]
  dsimp only
  have hveq : ({ v with query := none, fragment := none } : Url) = v := by
    cases v
    dsimp only at hq hf
    rw [hq, hf]
  rw [hveq]
  have hdom : v.domain = some d := by
    unfold Url.domain
    rw [hhost]
    dsimp only
    rw [if_neg hdne]
  rw [hdom]

/-- C8 witness: idempotence at the S1 example — re-canonicalizing
`https://google.com/about` returns the same pair. -/
theorem C8_canonicalize_idempotent_witness :
    normalize_url "https://google.com/about#cc?a=0" =
      some (⟨"https", some "google.com", "/about", none, none⟩, "google.com") ∧
    normalize_url (Url.toUrlString ⟨"https", some "google.com", "/about", none, none⟩) =
      some (⟨"https", some "google.com", "/about", none, none⟩, "google.com") :=
  ⟨by decide, C8_canonicalize_idempotent "https://google.com/about#cc?a=0"
    ⟨"https", some "google.com", "/about", none, none⟩ "google.com" (by decide)⟩

/-- `get_content_type` never reports a type other than `text/html`: any
other header value is collapsed to `none`. -/
theorem get_content_type_eq_none_or_html (hdr : Option String) (url : String) :
    get_content_type hdr url = none ∨ get_content_type hdr url = some "text/html" := by
  unfold get_content_type
  cases hdr with
  | some v =>
    dsimp only
    split
    · right; rfl
    · left; rfl
  | none =>
    dsimp only
    split
    · right; rfl
    · left; rfl

/-- The favicon upsert returns an id that the resulting `favicons` table
maps to the given url. -/
theorem upsert_favicon_mem (db : CrawlerDb) (url : String) :
    ((upsert_favicon db url).1, url) ∈ (upsert_favicon db url).2.favicons := by
  unfold upsert_favicon
  cases hf : db.favicons.find? (fun p => p.2 = url) with
  | some p =>
    dsimp only
    have hm := List.mem_of_find?_eq_some hf
    have hp := List.find?_some hf
    have hp2 : p.2 = url := by simpa using hp
    have : (p.1, url) = p := by
      cases p with
      | mk a b => simp_all
    rw [this]
    exact hm
  | none => simp

/-- The favicon upsert leaves the pages and queue tables alone. -/
theorem upsert_favicon_pages (db : CrawlerDb) (url : String) :
    (upsert_favicon db url).2.pages = db.pages ∧
    (upsert_favicon db url).2.queue = db.queue := by
  unfold upsert_favicon
  cases hf : db.favicons.find? (fun p => p.2 = url) with
  | some p => exact ⟨rfl, rfl⟩
  | none => exact ⟨rfl, rfl⟩

/-! ### Claim C1 -/

/-- C1: the spec's drop rows for non-HTML responses do not happen in the
code.  `get_content_type` maps a present non-`text/html` header to `None`
(it only ever answers `None` or `Some "text/html")`, and `crawl_page`'s
`InvalidContentType` branch fires only on a `Some` other than `text/html`,
so it is dead: a 2xx non-redirected `application/pdf` response, and a
headerless response on a non-`.html`/`.htm` URL, both proceed to the scrape
and persist path instead of being dropped. -/
theorem C1_nonhtml_response_not_dropped :
    classify_response 200 "https://example.com/file.pdf" "https://example.com/file.pdf"
        (some "application/pdf") = .parsePage ∧
    classify_response 200 "https://example.com/download" "https://example.com/download"
        none = .parsePage ∧
    get_content_type (some "application/pdf") "https://example.com/file.pdf" = none ∧
    ∀ (status : Nat) (ru tu : String) (hdr : Option String),
      classify_response status ru tu hdr ≠ ResponseDecision.invalidContentType := by
  refine ⟨by decide, by decide, by decide, ?_⟩
  intro status ru tu hdr
  unfold classify_response
  split
  · simp
  split
  · simp
  cases hn : normalize_url ru with
  | none => simp
  | some p =>
    dsimp only
    split
    · simp
    rcases get_content_type_eq_none_or_html hdr tu with h | h <;> rw [h]
    · simp
    · simp

/-! ### Claim C7 -/

/-- C7: the deny-list in the code misspells `.ppt` as `.ptt`, so an href
ending in `.ppt` (which §6 lists) passes the link selector and can become a
queue row, while `.exe` and `.css` are excluded as specified. -/
theorem C7_ppt_passes_link_filter :
    link_selected "https://a.com/slides.ppt" = true ∧
    ".ppt" ∉ LINK_DENY_SUFFIXES ∧
    ".ptt" ∈ LINK_DENY_SUFFIXES ∧
    link_selected "https://a.com/setup.exe" = false ∧
    link_selected "https://a.com/style.css" = false := by
  decide

/-! ### Claim C10 -/

/-- C10: the favicon row given to `save_page` carries the scraped favicon
URL when one was extracted and is at most 2048 bytes, else the
`https://domain/favicon.ico` fallback; and `save_page` always persists a
favicon row which the inserted page references. -/
theorem C10_favicon_row (f : Option String) (d : String) (db : CrawlerDb)
    (page : NewPage) (links : List (String × String)) (now : Int) :
    (∀ x, f = some x → x.utf8ByteSize ≤ 2048 → favicon_for f d = x) ∧
    (∀ x, f = some x → ¬ x.utf8ByteSize ≤ 2048 →
      favicon_for f d = "https://" ++ d ++ "/favicon.ico") ∧
    (f = none → favicon_for f d = "https://" ++ d ++ "/favicon.ico") ∧
    (∃ fid, (fid, favicon_for f d) ∈ (save_page db page (favicon_for f d) links now).favicons ∧
      { page with favicon_id := fid } ∈ (save_page db page (favicon_for f d) links now).pages) := by
  refine ⟨?_, ?_, ?_, ?_⟩
  · intro x hx hle
    subst hx
    simp [favicon_for, hle]
  · intro x hx hgt
    subst hx
    simp [favicon_for, hgt]
  · intro hx
    subst hx
    simp [favicon_for]
  · refine ⟨(upsert_favicon db (favicon_for f d)).1, ?_, ?_⟩
    · show _ ∈ (save_page db page (favicon_for f d) links now).favicons
      unfold save_page
      dsimp only
      exact upsert_favicon_mem db (favicon_for f d)
    · unfold save_page
      dsimp only
      simp

/-- C10 witness: a 9-byte scraped favicon URL is kept as-is and persisted. -/
theorem C10_favicon_row_witness :
    favicon_for (some "https://a.com/i.png") "a.com" = "https://a.com/i.png" ∧
    ("https://a.com/i.png" : String).utf8ByteSize ≤ 2048 ∧
    (∃ fid, (fid, favicon_for (some "https://a.com/i.png") "a.com") ∈
        (save_page ⟨[], [], []⟩
          ⟨"a.com", "https://a.com/p", none, -1, none, none, 0, "text/html", 0, 200, 0,
            none, 0, none, none, none, none⟩
          (favicon_for (some "https://a.com/i.png") "a.com") [] 0).favicons) := by
  have h := C10_favicon_row (some "https://a.com/i.png") "a.com" ⟨[], [], []⟩
    ⟨"a.com", "https://a.com/p", none, -1, none, none, 0, "text/html", 0, 200, 0,
      none, 0, none, none, none, none⟩ [] 0
  refine ⟨h.1 "https://a.com/i.png" rfl (by decide), by decide, ?_⟩
  obtain ⟨fid, hmem, _⟩ := h.2.2.2
  exact ⟨fid, hmem⟩

/-! ### Claim C6 -/

/-- C6 counterexample: `normalize_url` does not reject non-http(s) schemes —
an `ftp` URL is accepted with its domain, where the claim demands `none`.
(The scheme restriction lives in `is_crawlable_url`, applied separately by
the queue feeder.) -/
theorem C6_counterexample :
    normalize_url "ftp://example.com/x" =
      some (⟨"ftp", some "example.com", "/x", none, none⟩, "example.com") := by
  decide

/-- C6 (amended): `normalize_url` parses its input as an absolute URL, drops
the query and fragment, and returns the pair (canonical URL, domain); it
returns `none` exactly when parsing fails or the parsed URL has no domain —
with no scheme restriction of its own, the restriction to `http`/`https`
being enforced by the separate `is_crawlable_url` filter; the two concrete
S1 instances hold. -/
theorem C6_normalize_url_amended :
    (normalize_url "https://google.com/about#cc?a=0").map
        (fun p => (p.1.toUrlString, p.2)) = some ("https://google.com/about", "google.com") ∧
    normalize_url "google.com" = none ∧
    (∀ u v d, normalize_url u = some (v, d) →
      v.query = none ∧ v.fragment = none ∧ v.domain = some d ∧
      ∃ v0, Url.parse u = some v0 ∧ v = { v0 with query := none, fragment := none }) ∧
    (∀ u, Url.parse u = none → normalize_url u = none) ∧
    (∀ u v0, Url.parse u = some v0 →
      ({ v0 with query := none, fragment := none } : Url).domain = none →
      normalize_url u = none) ∧
    (∀ link, is_crawlable_url link = true →
      ∃ v, Url.parse link = some v ∧ (v.scheme = "http" ∨ v.scheme = "https")) := by
  refine ⟨by decide, by decide, ?_, ?_, ?_, ?_⟩
  · intro u v d h
    unfold normalize_url at h
    cases hp : Url.parse u with
    | none => rw [hp] at h; exact absurd h (by simp)
    | some v0 =>
      rw [hp] at h
      dsimp only at h
      cases hd : ({ v0 with query := none, fragment := none } : Url).domain with
      | none => rw [hd] at h; exact absurd h (by simp)
      | some d0 =>
        rw [hd] at h
        dsimp only at h
        simp only [Option.some.injEq, Prod.mk.injEq] at h
        obtain ⟨hv, hdd⟩ := h
        subst hv
        subst hdd
        exact ⟨rfl, rfl, hd, v0, rfl, rfl⟩
  · intro u hp
    unfold normalize_url
    rw [hp]
  · intro u v0 hp hd
    unfold normalize_url
    rw [hp]
    dsimp only
    rw [hd]
  · intro link h
    unfold is_crawlable_url at h
    cases hp : Url.parse link with
    | none => rw [hp] at h; exact absurd h (by simp)
    | some v =>
      rw [hp] at h
      refine ⟨v, rfl, ?_⟩
      by_cases h1 : v.scheme = "http"
      · exact Or.inl h1
      · by_cases h2 : v.scheme = "https"
        · exact Or.inr h2
        · simp [h1, h2] at h

/-- C6 witness: the amended statement applied at concrete inputs —
`https://x.com/a?q#f` normalizes with query and fragment dropped,
`nohost` fails to parse, `mailto:a@b.com` parses without a domain, and
`http://x.com/` passes the crawlable filter with scheme `http`. -/
theorem C6_normalize_url_amended_witness :
    ((normalize_url "https://x.com/a?q#f" = some (⟨"https", some "x.com", "/a", none, none⟩, "x.com")) ∧
      (⟨"https", some "x.com", "/a", none, none⟩ : Url).query = none) ∧
    normalize_url "nohost" = none ∧
    normalize_url "mailto:a@b.com" = none ∧
    (∃ v, Url.parse "http://x.com/" = some v ∧ (v.scheme = "http" ∨ v.scheme = "https")) := by
  have h := C6_normalize_url_amended
  refine ⟨⟨by decide, ?_⟩, ?_, ?_, ?_⟩
  · exact (h.2.2.1 "https://x.com/a?q#f" ⟨"https", some "x.com", "/a", none, none⟩ "x.com"
      (by decide)).1
  · exact h.2.2.2.1 "nohost" (by decide)
  · exact h.2.2.2.2.1 "mailto:a@b.com" ⟨"mailto", none, "a@b.com", none, none⟩
      (by decide) (by decide)
  · exact h.2.2.2.2.2 "http://x.com/" (by decide)

/-- `crawl_decision` only ever touches `last_crawl`. -/
theorem crawl_decision_fields (w : Website) (now : Nat) (ua url : String) :
    (crawl_decision w now ua url).2.domain = w.domain ∧
    (crawl_decision w now ua url).2.robots = w.robots ∧
    (crawl_decision w now ua url).2.last_robots_fetch = w.last_robots_fetch := by
  unfold crawl_decision
  split
  · exact ⟨rfl, rfl, rfl⟩
  split
  · split
    · exact ⟨rfl, rfl, rfl⟩
    · exact ⟨rfl, rfl, rfl⟩
  · exact ⟨rfl, rfl, rfl⟩

/-- `apply_fetch_result` never touches `last_crawl`. -/
theorem apply_fetch_result_last_crawl (w : Website) (r : Except Unit (Option String))
    (now : Nat) : (apply_fetch_result w r now).last_crawl = w.last_crawl := by
  cases r <;> rfl

/-- The fetched flag of `can_crawl` is exactly `should_fetch_robots`. -/
theorem can_crawl_fetched_iff (w : Website) (now : Nat) (f : Except Unit (Option String))
    (ua url : String) : (can_crawl w now f ua url).2.2 = w.should_fetch_robots now := by
  unfold can_crawl
  by_cases hs : w.should_fetch_robots now = true <;> simp [hs]

/-- A completed fetch stamps `last_robots_fetch` with the current instant. -/
theorem can_crawl_ok_lrf (w : Website) (now : Nat) (body : Option String) (ua url : String)
    (hs : w.should_fetch_robots now = true) :
    (can_crawl w now (.ok body) ua url).2.1.last_robots_fetch = some now := by
  unfold can_crawl
  simp only [hs, if_true]
  exact (crawl_decision_fields (apply_fetch_result w (.ok body) now) now ua url).2.2

/-- A failed fetch leaves `last_robots_fetch` unchanged. -/
theorem can_crawl_error_lrf (w : Website) (now : Nat) (e : Unit) (ua url : String) :
    (can_crawl w now (.error e) ua url).2.1.last_robots_fetch = w.last_robots_fetch := by
  unfold can_crawl
  by_cases hs : w.should_fetch_robots now = true <;>
    simp only [hs, if_true, Bool.false_eq_true, if_false] <;>
    exact (crawl_decision_fields w now ua url).2.2

/-- With no fetch due, `last_robots_fetch` is untouched. -/
theorem can_crawl_nofetch_lrf (w : Website) (now : Nat) (f : Except Unit (Option String))
    (ua url : String) (hs : w.should_fetch_robots now = false) :
    (can_crawl w now f ua url).2.1.last_robots_fetch = w.last_robots_fetch := by
  unfold can_crawl
  simp only [hs, Bool.false_eq_true, if_false]
  exact (crawl_decision_fields w now ua url).2.2

/-- An unfetched domain is always due for a robots fetch. -/
theorem can_crawl_fetched_of_lrf_none (w : Website) (now : Nat)
    (f : Except Unit (Option String)) (ua url : String)
    (h : w.last_robots_fetch = none) : (can_crawl w now f ua url).2.2 = true := by
  rw [can_crawl_fetched_iff]
  unfold Website.should_fetch_robots
  rw [h]

/-! ### Claim C5 -/

/-- C5 counterexample: a failed (network-error) robots fetch does not stamp
`last_robots_fetch`, and a second politeness check only 1 s later performs a
second robots fetch — the 24 h cooldown is not honored after a failure,
contradicting the claim's "no second robots fetch within 24 h". -/
theorem C5_counterexample :
    (can_crawl (Website.new "a.com") 0 (.error ()) "Epsilon" "https://a.com/x").2.2 = true ∧
    (can_crawl (Website.new "a.com") 0 (.error ()) "Epsilon"
        "https://a.com/x").2.1.last_robots_fetch = none ∧
    (can_crawl ((can_crawl (Website.new "a.com") 0 (.error ()) "Epsilon"
          "https://a.com/x").2.1)
        1000 (.error ()) "Epsilon" "https://a.com/x").2.2 = true := by
  decide

/-- C5 (amended): `last_robots_fetch` is set to now iff the fetch attempt
completed with `Ok` (a body, or `None` for an empty/non-success result); a
network-error fetch leaves it unchanged, so the 24 h cooldown is NOT
honored after a failure: from an unfetched state, a failed fetch leaves the
domain due for a robots fetch at every subsequent politeness check. -/
theorem C5_last_robots_fetch (w : Website) (now : Nat)
    (fetch : Except Unit (Option String)) (ua url : String) :
    ((can_crawl w now fetch ua url).2.2 = true → ∀ body, fetch = .ok body →
      (can_crawl w now fetch ua url).2.1.last_robots_fetch = some now) ∧
    ((can_crawl w now fetch ua url).2.2 = true → fetch = .error () →
      (can_crawl w now fetch ua url).2.1.last_robots_fetch = w.last_robots_fetch) ∧
    ((can_crawl w now fetch ua url).2.2 = false →
      (can_crawl w now fetch ua url).2.1.last_robots_fetch = w.last_robots_fetch) ∧
    (w.last_robots_fetch = none → fetch = .error () →
      ∀ now2 fetch2 url2,
        (can_crawl (can_crawl w now fetch ua url).2.1 now2 fetch2 ua url2).2.2 = true) := by
  refine ⟨?_, ?_, ?_, ?_⟩
  · intro h2 body hb
    subst hb
    have hs : w.should_fetch_robots now = true := by
      rw [← can_crawl_fetched_iff w now (.ok body) ua url]
      exact h2
    exact can_crawl_ok_lrf w now body ua url hs
  · intro _ hb
    subst hb
    exact can_crawl_error_lrf w now () ua url
  · intro h2
    have hs : w.should_fetch_robots now = false := by
      rw [← can_crawl_fetched_iff w now fetch ua url]
      exact h2
    exact can_crawl_nofetch_lrf w now fetch ua url hs
  · intro h0 hb now2 fetch2 url2
    subst hb
    refine can_crawl_fetched_of_lrf_none _ now2 fetch2 ua url2 ?_
    rw [can_crawl_error_lrf w now () ua url]
    exact h0

/-- C5 witness: the amended statement applied concretely — a completed
empty fetch stamps the instant, a network error leaves it unset, and after
the failure the next check (1 s later) fetches again. -/
theorem C5_last_robots_fetch_witness :
    (can_crawl (Website.new "b.com") 5 (.ok none) "Epsilon"
        "https://b.com/").2.1.last_robots_fetch = some 5 ∧
    (can_crawl (Website.new "b.com") 5 (.error ()) "Epsilon"
        "https://b.com/").2.1.last_robots_fetch = none ∧
    (can_crawl ((can_crawl (Website.new "b.com") 5 (.error ()) "Epsilon"
        "https://b.com/").2.1) 1005 (.error ()) "Epsilon" "https://b.com/").2.2 = true := by
  have h1 := C5_last_robots_fetch (Website.new "b.com") 5 (.ok none) "Epsilon" "https://b.com/"
  have h2 := C5_last_robots_fetch (Website.new "b.com") 5 (.error ()) "Epsilon" "https://b.com/"
  refine ⟨h1.1 (by decide) none rfl, ?_, ?_⟩
  · rw [h2.2.1 (by decide) rfl]
    rfl
  · exact h2.2.2.2 rfl rfl 1005 (.error ()) "https://b.com/"

/-- Every selected row comes from the table and belongs to a recent
domain. -/
theorem dequeue_selected_subset (q : List QueuedPage) :
    ∀ r ∈ dequeue_selected q, r ∈ q ∧ r.domain ∈ recent_domains q := by
  intro r hr
  unfold dequeue_selected at hr
  have h1 : r ∈ List.insertionSort tsDesc
      (q.filter (fun x => decide (x.domain ∈ recent_domains q))) :=
    (List.take_sublist _ _).subset hr
  have h2 : r ∈ q.filter (fun x => decide (x.domain ∈ recent_domains q)) :=
    (List.perm_insertionSort _ _).subset h1
  have h3 := List.mem_filter.mp h2
  exact ⟨h3.1, of_decide_eq_true h3.2⟩

/-- `recent_domains` returns at most 10 domains of the table, and every
excluded domain has a max-timestamp no greater than any included one. -/
theorem recent_domains_spec (q : List QueuedPage) :
    (recent_domains q).length ≤ 10 ∧
    (∀ d ∈ recent_domains q, d ∈ queueDomains q) ∧
    (∀ d ∈ recent_domains q, ∀ e ∈ queueDomains q, e ∉ recent_domains q →
      domainMax q e ≤ domainMax q d) := by
  refine ⟨List.length_take_le _ _, ?_, ?_⟩
  · intro d hd
    exact (List.perm_insertionSort _ _).subset ((List.take_sublist _ _).subset hd)
  · intro d hd e he hne
    have hsorted : List.Sorted (domMaxGE q)
        (List.insertionSort (domMaxGE q) (queueDomains q)) :=
      List.sorted_insertionSort _ _
    have heL : e ∈ List.insertionSort (domMaxGE q) (queueDomains q) :=
      (List.perm_insertionSort _ _).symm.subset he
    have hedrop : e ∈ List.drop 10 (List.insertionSort (domMaxGE q) (queueDomains q)) := by
      rw [← List.take_append_drop 10 (List.insertionSort (domMaxGE q) (queueDomains q))] at heL
      rcases List.mem_append.mp heL with h | h
      · exact absurd h hne
      · exact h
    exact hsorted.rel_of_mem_take_of_mem_drop hd hedrop

/-- The selected batch is ordered by timestamp descending. -/
theorem dequeue_selected_sorted (q : List QueuedPage) :
    (dequeue_selected q).Pairwise tsDesc :=
  List.Pairwise.sublist (List.take_sublist _ _) (List.sorted_insertionSort _ _)

/-- Any recent-domain row left in the table has a timestamp no greater than
any returned row's. -/
theorem dequeue_selected_greatest (q : List QueuedPage) :
    ∀ r ∈ (dequeue q).1, ∀ s ∈ (dequeue q).2,
      s.domain ∈ recent_domains q → s.timestamp ≤ r.timestamp := by
  intro r hr s hs hsd
  have hsq := List.mem_filter.mp hs
  have hsid : s.id ∉ (dequeue_selected q).map (fun x => x.id) := of_decide_eq_true hsq.2
  have hsnotsel : s ∉ dequeue_selected q := fun hmem => hsid (List.mem_map_of_mem _ hmem)
  have hsL : s ∈ List.insertionSort tsDesc
      (q.filter (fun x => decide (x.domain ∈ recent_domains q))) :=
    (List.perm_insertionSort _ _).symm.subset
      (List.mem_filter.mpr ⟨hsq.1, decide_eq_true hsd⟩)
  have hsdrop : s ∈ List.drop 100 (List.insertionSort tsDesc
      (q.filter (fun x => decide (x.domain ∈ recent_domains q)))) := by
    rw [← List.take_append_drop 100 (List.insertionSort tsDesc
      (q.filter (fun x => decide (x.domain ∈ recent_domains q))))] at hsL
    rcases List.mem_append.mp hsL with h | h
    · exact absurd h hsnotsel
    · exact h
  have hr' : r ∈ List.take 100 (List.insertionSort tsDesc
      (q.filter (fun x => decide (x.domain ∈ recent_domains q)))) := hr
  have := (List.sorted_insertionSort tsDesc
    (q.filter (fun x => decide (x.domain ∈ recent_domains q)))).rel_of_mem_take_of_mem_drop
    hr' hsdrop
  exact this

/-- With unique ids, deletion by id is deletion of exactly the returned
rows. -/
theorem dequeue_partition (q : List QueuedPage)
    (hnd : (q.map (fun r => r.id)).Nodup) :
    (dequeue q).2 = q.filter (fun x => decide (x ∉ (dequeue q).1)) := by
  show q.filter _ = q.filter _
  refine List.filter_congr ?_
  intro x hx
  have hsel : (dequeue q).1 = dequeue_selected q := rfl
  rw [hsel]
  by_cases hmem : x ∈ dequeue_selected q
  · have hid : x.id ∈ (dequeue_selected q).map (fun s => s.id) :=
      List.mem_map_of_mem _ hmem
    simp [hid, hmem]
  · by_cases hid : x.id ∈ (dequeue_selected q).map (fun s => s.id)
    · obtain ⟨s, hsmem, hsid⟩ := List.mem_map.mp hid
      have hsq := (dequeue_selected_subset q s hsmem).1
      have hsx : s = x := List.inj_on_of_nodup_map hnd hsq hx hsid
      subst hsx
      exact absurd hsmem hmem
    · simp [hid, hmem]

/-! ### Claim C2 -/

/-- C2: one `dequeue` call atomically removes and returns up to 100 rows,
all from the (at most) 10 domains of greatest max-timestamp — no excluded
domain beats an included one — ordered by timestamp descending; every
returned row was in the table; a recent-domain row left behind never has a
greater timestamp than a returned row; and (given the primary-key
uniqueness of ids) the rows remaining are exactly the table rows not
returned. -/
theorem C2_dequeue (q : List QueuedPage) (hnd : (q.map (fun r => r.id)).Nodup) :
    (dequeue q).1.length ≤ 100 ∧
    (∀ r ∈ (dequeue q).1, r ∈ q ∧ r.domain ∈ recent_domains q) ∧
    (recent_domains q).length ≤ 10 ∧
    (∀ d ∈ recent_domains q, ∀ e ∈ queueDomains q, e ∉ recent_domains q →
      domainMax q e ≤ domainMax q d) ∧
    (dequeue q).1.Pairwise tsDesc ∧
    (∀ r ∈ (dequeue q).1, ∀ s ∈ (dequeue q).2,
      s.domain ∈ recent_domains q → s.timestamp ≤ r.timestamp) ∧
    (dequeue q).2 = q.filter (fun x => decide (x ∉ (dequeue q).1)) ∧
    (∀ x, x ∈ q ↔ x ∈ (dequeue q).1 ∨ x ∈ (dequeue q).2) := by
  refine ⟨List.length_take_le _ _, dequeue_selected_subset q,
    (recent_domains_spec q).1, (recent_domains_spec q).2.2,
    dequeue_selected_sorted q, dequeue_selected_greatest q,
    dequeue_partition q hnd, ?_⟩
  intro x
  constructor
  · intro hx
    by_cases hmem : x ∈ (dequeue q).1
    · exact Or.inl hmem
    · refine Or.inr ?_
      rw [dequeue_partition q hnd]
      exact List.mem_filter.mpr ⟨hx, decide_eq_true hmem⟩
  · intro hx
    rcases hx with h | h
    · exact (dequeue_selected_subset q x h).1
    · exact (List.mem_filter.mp h).1

/-- C2 witness: a three-row table with unique ids — the batch returns all
rows ordered by timestamp descending and empties the table. -/
theorem C2_dequeue_witness :
    (([⟨1, "a.com", "https://a.com/1", 10⟩, ⟨2, "b.com", "https://b.com/2", 30⟩,
       ⟨3, "a.com", "https://a.com/3", 20⟩] : List QueuedPage).map
        (fun r => r.id)).Nodup ∧
    (dequeue [⟨1, "a.com", "https://a.com/1", 10⟩, ⟨2, "b.com", "https://b.com/2", 30⟩,
       ⟨3, "a.com", "https://a.com/3", 20⟩]).1.length ≤ 100 ∧
    (dequeue [⟨1, "a.com", "https://a.com/1", 10⟩, ⟨2, "b.com", "https://b.com/2", 30⟩,
       ⟨3, "a.com", "https://a.com/3", 20⟩]).1.Pairwise tsDesc ∧
    dequeue [⟨1, "a.com", "https://a.com/1", 10⟩, ⟨2, "b.com", "https://b.com/2", 30⟩,
       ⟨3, "a.com", "https://a.com/3", 20⟩] =
      ([⟨2, "b.com", "https://b.com/2", 30⟩, ⟨3, "a.com", "https://a.com/3", 20⟩,
        ⟨1, "a.com", "https://a.com/1", 10⟩], []) := by
  have h := C2_dequeue [⟨1, "a.com", "https://a.com/1", 10⟩,
    ⟨2, "b.com", "https://b.com/2", 30⟩, ⟨3, "a.com", "https://a.com/3", 20⟩] (by decide)
  exact ⟨by decide, h.1, h.2.2.2.2.1, by decide⟩

/-- How `crawl_decision` treats `last_crawl`: stamped with `now` exactly on
proceed, untouched otherwise, and proceeding past a set `last_crawl`
requires the cooldown to have elapsed. -/
theorem crawl_decision_lc (w : Website) (now : Nat) (ua url : String) :
    ((crawl_decision w now ua url).1 = .proceed →
      (crawl_decision w now ua url).2.last_crawl = some now) ∧
    ((crawl_decision w now ua url).1 ≠ .proceed →
      (crawl_decision w now ua url).2.last_crawl = w.last_crawl) ∧
    ((crawl_decision w now ua url).1 = .proceed →
      ∀ t, w.last_crawl = some t → DOMAIN_CRAWL_COOLDOWN ≤ now - t) := by
  unfold crawl_decision
  split
  · exact ⟨fun hp => absurd hp (by simp), fun _ => rfl, fun hp => absurd hp (by simp)⟩
  split
  · rename_i t0 heq
    split
    · exact ⟨fun hp => absurd hp (by simp), fun _ => rfl, fun hp => absurd hp (by simp)⟩
    · rename_i hnlt
      refine ⟨fun _ => rfl, fun hnp => absurd rfl hnp, fun _ t ht => ?_⟩
      rw [heq] at ht
      injection ht with ht'
      subst ht'
      omega
  · rename_i heq
    refine ⟨fun _ => rfl, fun hnp => absurd rfl hnp, fun _ t ht => ?_⟩
    rw [heq] at ht
    exact absurd ht (by simp)

/-- The `can_crawl` version of `crawl_decision_lc`. -/
theorem can_crawl_lc (w : Website) (now : Nat) (f : Except Unit (Option String))
    (ua url : String) :
    ((can_crawl w now f ua url).1 = .proceed →
      (can_crawl w now f ua url).2.1.last_crawl = some now) ∧
    ((can_crawl w now f ua url).1 ≠ .proceed →
      (can_crawl w now f ua url).2.1.last_crawl = w.last_crawl) ∧
    ((can_crawl w now f ua url).1 = .proceed →
      ∀ t, w.last_crawl = some t → DOMAIN_CRAWL_COOLDOWN ≤ now - t) := by
  unfold can_crawl
  by_cases hs : w.should_fetch_robots now = true <;>
    simp only [hs, if_true, Bool.false_eq_true, if_false]
  · have hlc := apply_fetch_result_last_crawl w f now
    have h := crawl_decision_lc (apply_fetch_result w f now) now ua url
    exact ⟨h.1, fun hnp => (h.2.1 hnp).trans hlc,
      fun hp t ht => h.2.2 hp t (hlc.trans ht)⟩
  · exact crawl_decision_lc w now ua url

/-- With a set `last_crawl` inside the cooldown window, `crawl_decision`
never proceeds: robots drop or re-enqueue. -/
theorem crawl_decision_cooldown (w : Website) (now : Nat) (ua url : String) (t : Nat)
    (ht : w.last_crawl = some t) (hlt : now - t < DOMAIN_CRAWL_COOLDOWN) :
    (crawl_decision w now ua url).1 = .dropRobots ∨
    (crawl_decision w now ua url).1 = .reenqueueCooldown := by
  unfold crawl_decision
  split
  · left; rfl
  rw [ht]
  dsimp only
  rw [if_pos hlt]
  right; rfl

/-- The `can_crawl` version of `crawl_decision_cooldown`. -/
theorem can_crawl_cooldown (w : Website) (now : Nat) (f : Except Unit (Option String))
    (ua url : String) (t : Nat)
    (ht : w.last_crawl = some t) (hlt : now - t < DOMAIN_CRAWL_COOLDOWN) :
    (can_crawl w now f ua url).1 = .dropRobots ∨
    (can_crawl w now f ua url).1 = .reenqueueCooldown := by
  unfold can_crawl
  by_cases hs : w.should_fetch_robots now = true <;>
    simp only [hs, if_true, Bool.false_eq_true, if_false]
  · exact crawl_decision_cooldown (apply_fetch_result w f now) now ua url t
      ((apply_fetch_result_last_crawl w f now).trans ht) hlt
  · exact crawl_decision_cooldown w now ua url t ht hlt

/-- The instants at which a decision sequence proceeded to a GET. -/
def proceedTimes (ds : List (Politeness × Nat)) : List Nat :=
  (ds.filter (fun p => decide (p.1 = Politeness.proceed))).map (fun p => p.2)

/-- Politeness trace invariant: with nondecreasing call instants and an
initial `last_crawl` no later than every call, consecutive proceeds are at
least the cooldown apart, and every proceed is at least the cooldown after
the initial `last_crawl`. -/
theorem run_can_crawl_gap_aux (ua : String) (calls : List PolitenessCall) :
    ∀ w : Website,
      (calls.map (fun c => c.now)).Pairwise (· ≤ ·) →
      (∀ t, w.last_crawl = some t → ∀ c ∈ calls, t ≤ c.now) →
      (proceedTimes (run_can_crawl ua w calls).2).Pairwise
          (fun a b => a + DOMAIN_CRAWL_COOLDOWN ≤ b) ∧
      (∀ t, w.last_crawl = some t → ∀ b ∈ proceedTimes (run_can_crawl ua w calls).2,
        t + DOMAIN_CRAWL_COOLDOWN ≤ b) := by
  induction calls with
  | nil =>
    intro w _ _
    exact ⟨by simp [run_can_crawl, proceedTimes], by simp [run_can_crawl, proceedTimes]⟩
  | cons c cs ih =>
    intro w hmono hinit
    rw [List.map_cons, List.pairwise_cons] at hmono
    obtain ⟨hhead, htail⟩ := hmono
    have hnext : ∀ t, (can_crawl w c.now c.fetch ua c.url).2.1.last_crawl = some t →
        ∀ c' ∈ cs, t ≤ c'.now := by
      intro t ht c' hc'
      by_cases hp : (can_crawl w c.now c.fetch ua c.url).1 = Politeness.proceed
      · rw [(can_crawl_lc w c.now c.fetch ua c.url).1 hp] at ht
        injection ht with ht'
        subst ht'
        exact hhead _ (List.mem_map_of_mem _ hc')
      · rw [(can_crawl_lc w c.now c.fetch ua c.url).2.1 hp] at ht
        exact hinit t ht c' (List.mem_cons_of_mem _ hc')
    obtain ⟨ihp, ihinit⟩ := ih (can_crawl w c.now c.fetch ua c.url).2.1 htail hnext
    have hrun : (run_can_crawl ua w (c :: cs)).2 =
        ((can_crawl w c.now c.fetch ua c.url).1, c.now) ::
          (run_can_crawl ua (can_crawl w c.now c.fetch ua c.url).2.1 cs).2 := rfl
    rw [hrun]
    by_cases hp : (can_crawl w c.now c.fetch ua c.url).1 = Politeness.proceed
    · have hpt : proceedTimes (((can_crawl w c.now c.fetch ua c.url).1, c.now) ::
          (run_can_crawl ua (can_crawl w c.now c.fetch ua c.url).2.1 cs).2) =
          c.now :: proceedTimes
            (run_can_crawl ua (can_crawl w c.now c.fetch ua c.url).2.1 cs).2 := by
        simp [proceedTimes, hp]
      rw [hpt]
      have hafter : ∀ b ∈ proceedTimes
          (run_can_crawl ua (can_crawl w c.now c.fetch ua c.url).2.1 cs).2,
          c.now + DOMAIN_CRAWL_COOLDOWN ≤ b :=
        ihinit c.now ((can_crawl_lc w c.now c.fetch ua c.url).1 hp)
      refine ⟨List.pairwise_cons.mpr ⟨hafter, ihp⟩, ?_⟩
      intro t ht b hb
      have htle : t ≤ c.now := hinit t ht c (List.mem_cons_self c cs)
      rcases List.mem_cons.mp hb with hb1 | hb2
      · subst hb1
        have := (can_crawl_lc w c.now c.fetch ua c.url).2.2 hp t ht
        omega
      · have := hafter b hb2
        omega
    · have hpt : proceedTimes (((can_crawl w c.now c.fetch ua c.url).1, c.now) ::
          (run_can_crawl ua (can_crawl w c.now c.fetch ua c.url).2.1 cs).2) =
          proceedTimes
            (run_can_crawl ua (can_crawl w c.now c.fetch ua c.url).2.1 cs).2 := by
        simp [proceedTimes, hp]
      rw [hpt]
      refine ⟨ihp, ?_⟩
      intro t ht b hb
      refine ihinit t ?_ b hb
      rw [(can_crawl_lc w c.now c.fetch ua c.url).2.1 hp]
      exact ht

/-! ### Claim C3 -/

/-- C3: per-domain politeness.  Run against a fresh domain state with
nondecreasing wall-clock instants, the politeness check lets GETs proceed at
instants at least `DOMAIN_CRAWL_COOLDOWN` (10 s) apart (in the model a
proceed performs the GET at the instant `last_crawl` is stamped); a task
whose domain has `last_crawl` set less than 10 s ago never proceeds and —
unless robots dropped it — is re-enqueued; and `last_crawl` is set to `now`
exactly when the check returns proceed. -/
theorem C3_domain_cooldown (ua d : String) (calls : List PolitenessCall)
    (hmono : (calls.map (fun c => c.now)).Pairwise (· ≤ ·)) :
    (proceedTimes (run_can_crawl ua (Website.new d) calls).2).Pairwise
        (fun a b => a + DOMAIN_CRAWL_COOLDOWN ≤ b) ∧
    (∀ (w : Website) (now : Nat) (f : Except Unit (Option String)) (url : String) (t : Nat),
      w.last_crawl = some t → now - t < DOMAIN_CRAWL_COOLDOWN →
      (can_crawl w now f ua url).1 ≠ Politeness.proceed ∧
      ((can_crawl w now f ua url).1 ≠ Politeness.dropRobots →
        (can_crawl w now f ua url).1 = Politeness.reenqueueCooldown)) ∧
    (∀ (w : Website) (now : Nat) (f : Except Unit (Option String)) (url : String),
      ((can_crawl w now f ua url).1 = Politeness.proceed →
        (can_crawl w now f ua url).2.1.last_crawl = some now) ∧
      ((can_crawl w now f ua url).1 ≠ Politeness.proceed →
        (can_crawl w now f ua url).2.1.last_crawl = w.last_crawl)) := by
  refine ⟨?_, ?_, ?_⟩
  · refine (run_can_crawl_gap_aux ua calls (Website.new d) hmono ?_).1
    intro t ht
    exact absurd ht (by simp [Website.new])
  · intro w now f url t ht hlt
    rcases can_crawl_cooldown w now f ua url t ht hlt with h | h
    · exact ⟨by rw [h]; simp, fun hnd => absurd h hnd⟩
    · exact ⟨by rw [h]; simp, fun _ => h⟩
  · intro w now f url
    exact ⟨(can_crawl_lc w now f ua url).1, (can_crawl_lc w now f ua url).2.1⟩

/-- C3 witness: three checks against a fresh domain at instants 0 s, 5 s and
10 s — the first and third proceed (10 s apart), the middle one is
re-enqueued by the cooldown. -/
theorem C3_domain_cooldown_witness :
    proceedTimes (run_can_crawl "Epsilon" (Website.new "a.com")
        [⟨0, .ok none, "https://a.com/1"⟩, ⟨5000, .error (), "https://a.com/2"⟩,
         ⟨10000, .error (), "https://a.com/3"⟩]).2 = [0, 10000] ∧
    (proceedTimes (run_can_crawl "Epsilon" (Website.new "a.com")
        [⟨0, .ok none, "https://a.com/1"⟩, ⟨5000, .error (), "https://a.com/2"⟩,
         ⟨10000, .error (), "https://a.com/3"⟩]).2).Pairwise
      (fun a b => a + DOMAIN_CRAWL_COOLDOWN ≤ b) ∧
    (can_crawl ⟨"a.com", none, some 0, some 0⟩ 5000 (.error ()) "Epsilon"
        "https://a.com/2").1 = Politeness.reenqueueCooldown := by
  have h := C3_domain_cooldown "Epsilon" "a.com"
    [⟨0, .ok none, "https://a.com/1"⟩, ⟨5000, .error (), "https://a.com/2"⟩,
     ⟨10000, .error (), "https://a.com/3"⟩] (by decide)
  exact ⟨by decide, h.1,
    (h.2.1 ⟨"a.com", none, some 0, some 0⟩ 5000 (.error ()) "https://a.com/2" 0 rfl
      (by decide)).2 (by decide)⟩

/-! ### Claim C4 -/

/-- C4 counterexample: a task dropped because robots.txt disallows its URL
leaves the VisitedSet untouched — the insert happens only after the
politeness check proceeds (worker.rs line 120) — so the VisitedSet does NOT
contain the URL, where the claim says it does. -/
theorem C4_counterexample :
    (process_task [] (Website.mk "a.com" (some "User-agent: *\nDisallow: /") (some 0) none)
        1000 (.error ()) "Epsilon" ⟨1, "a.com", "https://a.com/x"⟩).2.2 =
      TaskAction.dropRobots ∧
    "https://a.com/x" ∉
      (process_task [] (Website.mk "a.com" (some "User-agent: *\nDisallow: /") (some 0) none)
        1000 (.error ()) "Epsilon" ⟨1, "a.com", "https://a.com/x"⟩).1 := by
  decide

/-- C4 (amended): after a robots-disallow drop the VisitedSet is unchanged
and does not contain the URL; consequently the URL is not shielded from
re-attempts — a later dispatch of the same task is not skipped by the
visited check but re-evaluated against robots. -/
theorem C4_robots_drop_not_visited (visited : List String) (w : Website) (now : Nat)
    (f : Except Unit (Option String)) (ua : String) (t : Task)
    (h : (process_task visited w now f ua t).2.2 = TaskAction.dropRobots) :
    (process_task visited w now f ua t).1 = visited ∧
    t.url ∉ (process_task visited w now f ua t).1 ∧
    (∀ (w2 : Website) (now2 : Nat) (f2 : Except Unit (Option String)),
      (process_task (process_task visited w now f ua t).1 w2 now2 f2 ua t).2.2 ≠
        TaskAction.skipVisited) := by
  unfold process_task at h ⊢
  by_cases hv : t.url ∈ visited
  · rw [if_pos hv] at h
    exact absurd h (by simp)
  · rw [if_neg hv] at h ⊢
    dsimp only at h ⊢
    cases hc : (can_crawl w now f ua t.url).1 with
    | dropRobots =>
      dsimp only
      refine ⟨rfl, hv, ?_⟩
      intro w2 now2 f2
      rw [if_neg hv]
      cases (can_crawl w2 now2 f2 ua t.url).1 <;> simp
    | reenqueueCooldown => rw [hc] at h; simp at h
    | proceed => rw [hc] at h; simp at h

/-- C4 witness: the amended statement applied to the counterexample state:
the VisitedSet stays empty and a re-dispatch is not skipped. -/
theorem C4_robots_drop_not_visited_witness :
    (process_task [] (Website.mk "a.com" (some "User-agent: *\nDisallow: /") (some 0) none)
        1000 (.error ()) "Epsilon" ⟨1, "a.com", "https://a.com/x"⟩).1 = [] ∧
    (process_task
        (process_task [] (Website.mk "a.com" (some "User-agent: *\nDisallow: /") (some 0) none)
          1000 (.error ()) "Epsilon" ⟨1, "a.com", "https://a.com/x"⟩).1
        (Website.mk "a.com" (some "User-agent: *\nDisallow: /") (some 0) none)
        20000 (.error ()) "Epsilon" ⟨1, "a.com", "https://a.com/x"⟩).2.2 ≠
      TaskAction.skipVisited := by
  have h := C4_robots_drop_not_visited []
    (Website.mk "a.com" (some "User-agent: *\nDisallow: /") (some 0) none)
    1000 (.error ()) "Epsilon" ⟨1, "a.com", "https://a.com/x"⟩ (by decide)
  exact ⟨h.1, h.2.2 (Website.mk "a.com" (some "User-agent: *\nDisallow: /") (some 0) none)
    20000 (.error ())⟩

/-! ### Claim C9 -/

/-- The dispatch-guard invariant: every in-flight GET's URL is in the
VisitedSet, and no two distinct workers have in-flight GETs for the same
URL. -/
def WorkerInv (s : Sys) : Prop :=
  (∀ i t since, s.workers i = WPhase.fetching t since → t.url ∈ s.visited) ∧
  (∀ i j t1 s1 t2 s2, s.workers i = WPhase.fetching t1 s1 →
    s.workers j = WPhase.fetching t2 s2 → i ≠ j → t1.url ≠ t2.url)

/-- `applyDecision` preserves the guard invariant when the task's URL was
absent from the VisitedSet at decision time (which the atomic
contains-check guarantees). -/
theorem workerInv_applyDecision (s : Sys) (i : Nat) (t : Task)
    (dw : Politeness × Website) (hv : t.url ∉ s.visited) (hinv : WorkerInv s) :
    WorkerInv (applyDecision s i t dw) := by
  obtain ⟨h1, h2⟩ := hinv
  unfold applyDecision
  cases hdw : dw.1 with
  | dropRobots =>
    dsimp only
    constructor
    · intro j t' since' hj
      dsimp only at hj ⊢
      by_cases hij : j = i
      · subst hij
        rw [Function.update_same] at hj
        exact absurd hj (by simp)
      · rw [Function.update_noteq hij] at hj
        exact h1 j t' since' hj
    · intro j k t1 s1 t2 s2 hj hk hjk
      dsimp only at hj hk ⊢
      by_cases hji : j = i
      · subst hji
        rw [Function.update_same] at hj
        exact absurd hj (by simp)
      · by_cases hki : k = i
        · subst hki
          rw [Function.update_same] at hk
          exact absurd hk (by simp)
        · rw [Function.update_noteq hji] at hj
          rw [Function.update_noteq hki] at hk
          exact h2 j k t1 s1 t2 s2 hj hk hjk
  | reenqueueCooldown =>
    dsimp only
    constructor
    · intro j t' since' hj
      dsimp only at hj ⊢
      by_cases hij : j = i
      · subst hij
        rw [Function.update_same] at hj
        exact absurd hj (by simp)
      · rw [Function.update_noteq hij] at hj
        have hmem := h1 j t' since' hj
        have hne : t'.url ≠ t.url := fun he => hv (he ▸ hmem)
        exact (List.mem_erase_of_ne hne).mpr hmem
    · intro j k t1 s1 t2 s2 hj hk hjk
      dsimp only at hj hk ⊢
      by_cases hji : j = i
      · subst hji
        rw [Function.update_same] at hj
        exact absurd hj (by simp)
      · by_cases hki : k = i
        · subst hki
          rw [Function.update_same] at hk
          exact absurd hk (by simp)
        · rw [Function.update_noteq hji] at hj
          rw [Function.update_noteq hki] at hk
          exact h2 j k t1 s1 t2 s2 hj hk hjk
  | proceed =>
    dsimp only
    constructor
    · intro j t' since' hj
      dsimp only at hj ⊢
      by_cases hij : j = i
      · subst hij
        rw [Function.update_same] at hj
        injection hj with ht' _
        rw [← ht']
        exact List.mem_cons_self _ _
      · rw [Function.update_noteq hij] at hj
        exact List.mem_cons_of_mem _ (h1 j t' since' hj)
    · intro j k t1 s1 t2 s2 hj hk hjk
      dsimp only at hj hk ⊢
      by_cases hji : j = i
      · subst hji
        rw [Function.update_same] at hj
        injection hj with ht1 _
        have hki : k ≠ j := Ne.symm hjk
        rw [Function.update_noteq hki] at hk
        have hmem := h1 k t2 s2 hk
        rw [← ht1]
        exact fun he => hv (he ▸ hmem)
      · by_cases hki : k = i
        · subst hki
          rw [Function.update_same] at hk
          injection hk with ht2 _
          rw [Function.update_noteq hji] at hj
          have hmem := h1 j t1 s1 hj
          rw [← ht2]
          exact fun he => hv (he.symm ▸ hmem)
        · rw [Function.update_noteq hji] at hj
          rw [Function.update_noteq hki] at hk
          exact h2 j k t1 s1 t2 s2 hj hk hjk

/-- `applyOutcome` preserves the guard invariant. -/
theorem workerInv_applyOutcome (s : Sys) (i : Nat) (t : Task) (since0 : Nat)
    (o : FetchOutcome) (hw : s.workers i = WPhase.fetching t since0)
    (hinv : WorkerInv s) : WorkerInv (applyOutcome s i t o) := by
  obtain ⟨h1, h2⟩ := hinv
  have hother : ∀ j t' since', j ≠ i →
      Function.update s.workers i WPhase.idle j = WPhase.fetching t' since' →
      s.workers j = WPhase.fetching t' since' := by
    intro j t' since' hji hj
    rwa [Function.update_noteq hji] at hj
  have hzero : ∀ j t' since',
      Function.update s.workers i WPhase.idle j = WPhase.fetching t' since' → j ≠ i := by
    intro j t' since' hj hji
    subst hji
    rw [Function.update_same] at hj
    exact absurd hj (by simp)
  have hpair : ∀ j k t1 s1 t2 s2,
      Function.update s.workers i WPhase.idle j = WPhase.fetching t1 s1 →
      Function.update s.workers i WPhase.idle k = WPhase.fetching t2 s2 →
      j ≠ k → t1.url ≠ t2.url := by
    intro j k t1 s1 t2 s2 hj hk hjk
    exact h2 j k t1 s1 t2 s2
      (hother j t1 s1 (hzero j t1 s1 hj) hj)
      (hother k t2 s2 (hzero k t2 s2 hk) hk) hjk
  have hne : ∀ j t' since',
      Function.update s.workers i WPhase.idle j = WPhase.fetching t' since' →
      t'.url ≠ t.url := by
    intro j t' since' hj
    have hji := hzero j t' since' hj
    exact h2 j i t' since' t since0 (hother j t' since' hji hj) hw hji
  unfold applyOutcome
  cases o with
  | success =>
    dsimp only
    exact ⟨fun j t' s' hj => h1 j t' s' (hother j t' s' (hzero j t' s' hj) hj), hpair⟩
  | drop =>
    dsimp only
    exact ⟨fun j t' s' hj => h1 j t' s' (hother j t' s' (hzero j t' s' hj) hj), hpair⟩
  | retry =>
    dsimp only
    refine ⟨?_, hpair⟩
    intro j t' s' hj
    dsimp only at hj ⊢
    exact (List.mem_erase_of_ne (hne j t' s' hj)).mpr
      (h1 j t' s' (hother j t' s' (hzero j t' s' hj) hj))
  | redirect v =>
    dsimp only
    split
    · exact ⟨fun j t' s' hj => h1 j t' s' (hother j t' s' (hzero j t' s' hj) hj), hpair⟩
    · rename_i hvmem
      refine ⟨?_, hpair⟩
      intro j t' s' hj
      dsimp only at hj ⊢
      rw [List.erase_of_not_mem hvmem]
      exact h1 j t' s' (hother j t' s' (hzero j t' s' hj) hj)

/-- One fetch-free step preserves the guard invariant. -/
theorem workerInv_step (ua : String) (s s' : Sys) (hstep : Step ua false s s')
    (hinv : WorkerInv s) : WorkerInv s' := by
  cases hstep with
  | tick _ _ n => exact hinv
  | skipVisited _ _ i t hidle hv => exact hinv
  | polite _ _ i t hidle hv hnf => exact workerInv_applyDecision _ i t _ hv hinv
  | getEnd _ _ i t since o hw => exact workerInv_applyOutcome _ i t since o hw hinv

/-- The guard invariant holds in every state reachable without robots
fetches. -/
theorem workerInv_reachable (ua : String) (s s' : Sys)
    (hreach : Reachable ua false s s') (hinv : WorkerInv s) : WorkerInv s' := by
  induction hreach with
  | refl => exact hinv
  | tail hab hbc ih => exact workerInv_step ua _ _ hbc ih

/-- C9 (amended): in every execution in which no politeness check needs a
robots fetch — so the contains-check, the check, and the insert form one
atomic block, as the cooperative scheduler makes them when there is no
await in between — no two workers ever have page GETs for the same URL in
flight.  (The unrestricted system violates this: see the counterexample.) -/
theorem C9_visited_guard_without_fetch (ua : String) (s0 s : Sys)
    (hidle : ∀ i, s0.workers i = WPhase.idle)
    (hreach : Reachable ua false s0 s) :
    ¬ concurrentSameUrl s := by
  have hinv : WorkerInv s0 := by
    constructor
    · intro i t since hi
      rw [hidle i] at hi
      exact absurd hi (by simp)
    · intro i j t1 s1 t2 s2 hi
      rw [hidle i] at hi
      exact absurd hi (by simp)
  have hinv' := workerInv_reachable ua s0 s hreach hinv
  rintro ⟨i, j, t1, s1, t2, s2, hij, hi, hj, hurl⟩
  exact hinv'.2 i j t1 s1 t2 s2 hi hj hij hurl

/-- C9 witness: the amended theorem applied to the initial all-idle state
itself (the empty execution). -/
theorem C9_visited_guard_without_fetch_witness :
    ¬ concurrentSameUrl ⟨0, [], [], fun _ => WPhase.idle⟩ :=
  C9_visited_guard_without_fetch "Epsilon" ⟨0, [], [], fun _ => WPhase.idle⟩
    ⟨0, [], [], fun _ => WPhase.idle⟩ (fun _ => rfl) Relation.ReflTransGen.refl

def c9Task : Task := ⟨1, "a.com", "https://a.com/x"⟩

def c9s0 : Sys := ⟨0, [], [], fun _ => WPhase.idle⟩

def c9s1 : Sys :=
  { c9s0 with
    sites := putSite c9s0.sites c9Task.domain (getSite c9s0.sites c9Task.domain),
    workers := Function.update c9s0.workers 0 (WPhase.robotsWait c9Task) }

def c9s2 : Sys :=
  { c9s1 with
    sites := putSite c9s1.sites c9Task.domain (getSite c9s1.sites c9Task.domain),
    workers := Function.update c9s1.workers 1 (WPhase.robotsWait c9Task) }

def c9s3 : Sys := { c9s2 with now := c9s2.now + 5 }

def c9s4 : Sys :=
  applyDecision c9s3 0 c9Task
    (crawl_decision (apply_fetch_result (getSite c9s3.sites c9Task.domain) (.ok none) c9s3.now)
      c9s3.now "Epsilon" c9Task.url)

def c9s5 : Sys := { c9s4 with now := c9s4.now + 10000 }

def c9s6 : Sys :=
  applyDecision c9s5 1 c9Task
    (crawl_decision (apply_fetch_result (getSite c9s5.sites c9Task.domain) (.ok none) c9s5.now)
      c9s5.now "Epsilon" c9Task.url)

/-- C9 counterexample: an interleaving of the full system in which two
workers GET the same URL concurrently.  Both workers receive a task for the
same URL (two queue rows can canonicalize to one URL), both pass the
VisitedSet contains-check, and both suspend on the first-touch robots
fetch; worker 0 resumes, inserts, and starts its GET; worker 1 resumes
10 s later (its robots fetch was slow), passes the cooldown exactly, and
starts its own GET while worker 0's — as long as the 10 s request timeout
allows — is still in flight. -/
theorem C9_counterexample :
    Reachable "Epsilon" true c9s0 c9s6 ∧ concurrentSameUrl c9s6 := by
  constructor
  · refine Relation.ReflTransGen.head
      (Step.fetchStart c9s0 0 c9Task rfl (by simp [c9s0, c9Task]) (by decide))
      (Relation.ReflTransGen.head
        (Step.fetchStart c9s1 1 c9Task (by decide) (by simp [c9s1, c9s0, c9Task]) (by decide))
        (Relation.ReflTransGen.head (Step.tick true c9s2 5)
          (Relation.ReflTransGen.head
            (Step.fetchEnd c9s3 0 c9Task (.ok none) (by decide))
            (Relation.ReflTransGen.head (Step.tick true c9s4 10000)
              (Relation.ReflTransGen.head
                (Step.fetchEnd c9s5 1 c9Task (.ok none) (by decide))
                Relation.ReflTransGen.refl)))))
  · exact ⟨0, 1, c9Task, 5, c9Task, 10005, by decide, by decide, by decide, rfl⟩

end Epsilon
